import Mathlib

/-!
# translate_web: the page-fetch-and-translate pipeline of `src/components/translate.js`

A shallow embedding of `translateText` and `translateWebsite` of the component
`WebsiteTranslator`, and the properties of the pipeline proved on it.

* The DOM is a tree of text, comment and element nodes of the HTML namespace; a node
  reference is the path of child indices from the body element to the node. A `template`
  element holds its content fragment apart from its children: `querySelectorAll` and the
  TreeWalker do not enter it, `innerHTML` serialises it.
* The browser and the two remote services are a parameter `Browser`: `fetch`, `DOMParser`,
  `encodeURIComponent`, the `URL` constructor, the URL-reflecting properties `src` and
  `href`, and `innerHTML`. A theorem that quantifies over `Browser` holds for any behaviour
  of these; the concrete browsers at the end of the definitions serve the examples.
* An exception is the `message` of the error thrown.
* `translateWebsite` is the list of the observable events of one click, in program order;
  the component state after the click is the fold of `applyEvent` over them.
* `textNodes` runs the TreeWalker as the DOM standard defines `nextNode`; `textUnits` is the
  recursive pre-order list it is compared with.
-/

namespace TranslateWeb

/-! ## JavaScript strings and values -/

/-- White space and line terminators of ECMAScript, the characters `String.prototype.trim`
strips. -/
def isJsWhitespace (c : Char) : Bool :=
  let n := c.toNat
  n == 0x09 || n == 0x0A || n == 0x0B || n == 0x0C || n == 0x0D || n == 0x20 || n == 0xA0 ||
  n == 0x1680 || (0x2000 ≤ n && n ≤ 0x200A) || n == 0x2028 || n == 0x2029 || n == 0x202F ||
  n == 0x205F || n == 0x3000 || n == 0xFEFF

/-- The method `String.prototype.trim`. -/
def jsTrim (s : String) : String :=
  String.mk ((s.toList.dropWhile isJsWhitespace).reverse.dropWhile isJsWhitespace).reverse

/-- The test `text.length > 0` applied to `node.textContent.trim()`. -/
def hasText (data : String) : Bool :=
  decide (0 < (jsTrim data).length)

/-- A value produced by `response.json()`, plus `undefined`. A number is held as the string
`ToString` gives for it, the only observation `translateText` makes of a number. -/
inductive JsVal where
  | undefined
  | null
  | bool (b : Bool)
  | num (shown : String)
  | str (s : String)
  | arr (items : List JsVal)
  | obj (fields : List (String × JsVal))

/-- Concatenation of strings with a separator. -/
def joinStrings (sep : String) : List String → String
  | [] => ""
  | [a] => a
  | a :: b :: rest => a ++ sep ++ joinStrings sep (b :: rest)

mutual
/-- The abstract operation `ToString` on the values above. -/
def jsToString : JsVal → String
  | .undefined => "undefined"
  | .null => "null"
  | .bool true => "true"
  | .bool false => "false"
  | .num shown => shown
  | .str s => s
  | .arr items => joinStrings "," (joinParts items)
  | .obj _ => "[object Object]"
/-- The strings `Array.prototype.join` concatenates: `undefined` and `null` give the empty
string, every other element its `ToString`. -/
def joinParts : List JsVal → List String
  | [] => []
  | .undefined :: rest => "" :: joinParts rest
  | .null :: rest => "" :: joinParts rest
  | x :: rest => jsToString x :: joinParts rest
end

/-- The expression `x[0]`. It throws a `TypeError` on `undefined` and `null`. On a string it
is the first character (for a first character outside the Basic Multilingual Plane JavaScript
gives half of it; the model gives the character). -/
def index0 : JsVal → Except String JsVal
  | .undefined => .error "Cannot read properties of undefined (reading 0)"
  | .null => .error "Cannot read properties of null (reading 0)"
  | .arr items => .ok (items.head?.getD .undefined)
  | .str s => .ok (match s.toList with
      | [] => .undefined
      | c :: _ => .str (String.singleton c))
  | .obj fields => .ok ((fields.lookup "0").getD .undefined)
  | _ => .ok .undefined

/-- The callback `x => x[0]` mapped by `Array.prototype.map`, which stops at the first
element that throws. -/
def mapIndex0 : List JsVal → Except String (List JsVal)
  | [] => .ok []
  | x :: rest =>
    match index0 x with
    | .error e => .error e
    | .ok v =>
      match mapIndex0 rest with
      | .error e => .error e
      | .ok vs => .ok (v :: vs)

/-- The expression `data[0].map(x => x[0]).join('')` of `translateText`. Only an array has
a `map` method. -/
def parseTranslation (data : JsVal) : Except String String :=
  match index0 data with
  | .error e => .error e
  | .ok (.arr entries) =>
    match mapIndex0 entries with
    | .error e => .error e
    | .ok firsts => .ok (joinStrings "" (joinParts firsts))
  | .ok .undefined => .error "Cannot read properties of undefined (reading map)"
  | .ok .null => .error "Cannot read properties of null (reading map)"
  | .ok _ => .error "data[0].map is not a function"

/-! ## The document tree -/

/-- A node of the parsed document: element names and attribute names are as the HTML parser
leaves them (lower case). A `template` element comes apart: the parser puts what stands
between its tags into its content fragment, which is not among its children, so the element
has no child; `innerHTML` serialises the fragment inside the element. -/
inductive Node where
  | text (data : String)
  | comment (data : String)
  | element (tag : String) (attrs : List (String × String)) (children : List Node)
  | template (attrs : List (String × String)) (content : List Node)

/-- A node reference: the child indices leading from the body element to the node. -/
abbrev Path := List Nat

/-- The parsed document: its base URL (`doc.baseURI`) and the children of its head and body
elements. -/
structure Document where
  baseURI : String
  head : List Node
  body : List Node

mutual
/-- Number of nodes of a subtree. -/
def countNode : Node → Nat
  | .text _ => 1
  | .comment _ => 1
  | .element _ _ children => 1 + countForest children
  | .template _ _ => 1
/-- Number of nodes of a list of subtrees. -/
def countForest : List Node → Nat
  | [] => 0
  | n :: rest => countNode n + countForest rest
end

mutual
/-- Number of `script` elements of a subtree, as `querySelectorAll('script')` finds them:
the content of a template is not searched. -/
def scriptCountNode : Node → Nat
  | .text _ => 0
  | .comment _ => 0
  | .element tag _ children => (if tag = "script" then 1 else 0) + scriptCount children
  | .template _ _ => 0
/-- Number of `script` elements of a list of subtrees, as `querySelectorAll('script')` finds
them. -/
def scriptCount : List Node → Nat
  | [] => 0
  | n :: rest => scriptCountNode n + scriptCount rest
end

mutual
/-- Number of `script` elements in the serialisation of a subtree: the content of a
template counts. -/
def markupScriptCountNode : Node → Nat
  | .text _ => 0
  | .comment _ => 0
  | .element tag _ children => (if tag = "script" then 1 else 0) + markupScriptCount children
  | .template _ content => markupScriptCount content
/-- Number of `script` elements in the serialisation `innerHTML` of a list of subtrees. -/
def markupScriptCount : List Node → Nat
  | [] => 0
  | n :: rest => markupScriptCountNode n + markupScriptCount rest
end

/-- Whether a node matches the selector `script`. -/
def isScript : Node → Bool
  | .element tag _ _ => tag == "script"
  | _ => false

mutual
/-- The statement `querySelectorAll('script').forEach(el => el.remove())` inside a node that
stays. -/
def removeScriptsIn : Node → Node
  | .text data => .text data
  | .comment data => .comment data
  | .element tag attrs children => .element tag attrs (removeScripts children)
  | .template attrs content => .template attrs content
/-- The statement `querySelectorAll('script').forEach(el => el.remove())` on a list of
siblings: every `script` element goes, at any depth; the content of a template is not
among the descendants and stays as it is. -/
def removeScripts : List Node → List Node
  | [] => []
  | n :: rest =>
    if isScript n then removeScripts rest else removeScriptsIn n :: removeScripts rest
end

/-- Line 73 on the whole document. -/
def removeScriptElements (doc : Document) : Document :=
  { doc with head := removeScripts doc.head, body := removeScripts doc.body }

/-- The data of the text node a reference points to (`node.textContent` of a `Text`). -/
def textAt : List Node → Path → Option String
  | _, [] => none
  | nodes, [i] =>
    match nodes[i]? with
    | some (.text data) => some data
    | _ => none
  | nodes, i :: j :: rest =>
    match nodes[i]? with
    | some (.element _ _ children) => textAt children (j :: rest)
    | _ => none

/-- The assignment `node.textContent = value` on the text node a reference points to. -/
def setText : List Node → Path → String → List Node
  | nodes, [], _ => nodes
  | nodes, [i], value =>
    match nodes[i]? with
    | some (.text _) => nodes.set i (.text value)
    | _ => nodes
  | nodes, i :: j :: rest, value =>
    match nodes[i]? with
    | some (.element tag attrs children) =>
      nodes.set i (.element tag attrs (setText children (j :: rest) value))
    | _ => nodes

/-- The node a reference points to. -/
def nodeAt : List Node → Path → Option Node
  | _, [] => none
  | nodes, [i] => nodes[i]?
  | nodes, i :: j :: rest =>
    match nodes[i]? with
    | some (.element _ _ children) => nodeAt children (j :: rest)
    | _ => none

/-- Value of an attribute of the element a reference points to. -/
def attrAt (nodes : List Node) (q : Path) (name : String) : Option String :=
  match nodeAt nodes q with
  | some (.element _ attrs _) => attrs.lookup name
  | _ => none

/-- What a node is by itself, without its descendants. -/
def Node.own : Node → Node
  | .text data => .text data
  | .comment data => .comment data
  | .element tag attrs _ => .element tag attrs []
  | .template attrs _ => .template attrs []

/-! ## The TreeWalker of lines 75 to 89 -/

/-- One level of the ancestor chain of a node: the parent element and the siblings on both
sides. -/
structure Frame where
  before : List Node
  tag : String
  attrs : List (String × String)
  after : List Node

/-- A node together with its ancestor chain up to the root of the walker: what `parentNode`,
`firstChild` and `nextSibling` need. -/
structure Loc where
  node : Node
  up : List Frame

/-- The reference of a located node. -/
def Loc.path (l : Loc) : Path :=
  (l.up.map fun f => f.before.length).reverse

/-- The property `firstChild`. -/
def Loc.firstChild (l : Loc) : Option Loc :=
  match l.node with
  | .element tag attrs (c :: rest) => some ⟨c, ⟨[], tag, attrs, rest⟩ :: l.up⟩
  | _ => none

/-- The filter of `createTreeWalker(doc.body, NodeFilter.SHOW_TEXT, null, false)`: a text
node is accepted, any other node is skipped. -/
def showText : Node → Bool
  | .text _ => true
  | _ => false

/-- Step 3 of `nextNode` in the DOM standard: climb from `temporary` until a node with a
`nextSibling` is found; `none` when the root is reached. -/
def followingFrom : Node → List Frame → Option Loc
  | _, [] => none
  | temporary, f :: up =>
    match f.after with
    | sibling :: rest => some ⟨sibling, ⟨temporary :: f.before, f.tag, f.attrs, rest⟩ :: up⟩
    | [] => followingFrom (.element f.tag f.attrs (f.before.reverse ++ [temporary])) up

/-- The method `walker.nextNode()` from the current node: descend to the first child while
there is one, otherwise move to the following node, until an accepted node is found. `none`
is the `null` that ends the traversal. Every move goes one node forward in document order;
the first argument bounds the number of moves, and `textNodes` gives more than there are
nodes. -/
def nextNode : Nat → Loc → Option Loc
  | 0, _ => none
  | fuel + 1, current =>
    match current.firstChild with
    | some child => if showText child.node then some child else nextNode fuel child
    | none =>
      match followingFrom current.node current.up with
      | none => none
      | some sibling => if showText sibling.node then some sibling else nextNode fuel sibling

mutual
/-- The property `textContent` of a node. -/
def Node.textContent : Node → String
  | .text data => data
  | .comment data => data
  | .element _ _ children => descendantText children
  | .template _ _ => ""
/-- The concatenated text content of the children, comments left out. -/
def descendantText : List Node → String
  | [] => ""
  | .comment _ :: rest => descendantText rest
  | n :: rest => n.textContent ++ descendantText rest
end

/-- The loop `while (node = walker.nextNode())` of lines 84 to 89; `limit` bounds the moves
of one `nextNode` and the second argument the turns of the loop. -/
def collectLoop (limit : Nat) : Nat → Loc → List Path → List Path
  | 0, _, textNodes => textNodes
  | fuel + 1, current, textNodes =>
    match nextNode limit current with
    | none => textNodes
    | some node =>
      if hasText node.node.textContent then
        collectLoop limit fuel node (textNodes ++ [node.path])
      else
        collectLoop limit fuel node textNodes

/-- The array `textNodes` of line 83 once the loop has ended. The walker starts at the body
element; each call of `nextNode` and each turn of the loop moves forward in the tree, so the
number of nodes bounds both. -/
def textNodes (body : List Node) : List Path :=
  collectLoop (countForest body + 1) (countForest body + 1) ⟨.element "body" [] body, []⟩ []

mutual
/-- Text nodes of a subtree in document order, each with its reference, given the reference
of the subtree root. -/
def textsNode (here : Path) : Node → List (Path × String)
  | .text data => [(here, data)]
  | .comment _ => []
  | .element _ _ children => textsForest here 0 children
  | .template _ _ => []
/-- Text nodes of the siblings numbered from `i` under the node at `parent`, in document
order. -/
def textsForest (parent : Path) (i : Nat) : List Node → List (Path × String)
  | [] => []
  | n :: rest => textsNode (parent ++ [i]) n ++ textsForest parent (i + 1) rest
end

/-- Reference of the parent whose ancestor chain is given. -/
def framesPath (up : List Frame) : Path :=
  (up.map fun f => f.before.length).reverse

/-- Text nodes that follow, in document order, the subtree whose ancestor chain is given. -/
def upTexts : List Frame → List (Path × String)
  | [] => []
  | f :: up => textsForest (framesPath up) (f.before.length + 1) f.after ++ upTexts up

/-- Number of nodes that follow, in document order, the subtree whose ancestor chain is
given. -/
def upCount : List Frame → Nat
  | [] => 0
  | f :: up => countForest f.after + upCount up

/-- Text nodes that follow a located node in document order, inside the root of the
walker. -/
def restTexts (l : Loc) : List (Path × String) :=
  (match l.node with
    | .element _ _ children => textsForest l.path 0 children
    | _ => []) ++ upTexts l.up

/-- Number of nodes that follow a located node in document order. -/
def restCount (l : Loc) : Nat :=
  (match l.node with
    | .element _ _ children => countForest children
    | _ => 0) + upCount l.up

/-- The specification of the extraction: the text nodes of the body subtree in pre-order,
kept when their trimmed content is not empty. -/
def textUnits (body : List Node) : List (Path × String) :=
  (textsForest [] 0 body).filter fun u => hasText u.2

/-! ## The browser and the network -/

/-- What `fetch` resolves to: the status code and what `response.text()` and
`response.json()` give, a value or the message of the error they reject with. -/
structure Response where
  status : Nat
  text : Except String String
  json : Except String JsVal

/-- The browser functions the component calls and the two remote services behind `fetch`.
An error is the `message` of the exception thrown.
* `fetch k u`: the answer to a GET of `u` when `k` requests were issued before it in the run;
* `parseFromString html`: `new DOMParser().parseFromString(html, 'text/html')`;
* `urlHref input base`: `new URL(input, base).href`;
* `reflectURL baseURI value`: the value of the `src` or `href` property of an element whose
  content attribute is `value`, in a document of base URL `baseURI`;
* `innerHTML nodes`: the serialisation `doc.body.innerHTML` of the children of the body. -/
structure Browser where
  fetch : Nat → String → Except String Response
  encodeURIComponent : String → String
  parseFromString : String → Except String Document
  urlHref : String → String → Except String String
  reflectURL : String → String → String
  innerHTML : List Node → String

/-- The state of the component that `translateWebsite` reads or writes. -/
structure State where
  url : String
  selectedLanguage : String
  loading : Bool
  translatedContent : String
  showToast : Bool
  toastMessage : String

/-- What one run does that can be observed from outside, in program order. -/
inductive Event where
  | fetch (url : String)
  | parse (html : String)
  | consoleError (message : String)
  | setLoading (value : Bool)
  | setTranslatedContent (markup : String)
  | displayToast (message : String)
deriving DecidableEq

/-- The state setters; `displayToast` sets the message and shows the toast (hiding it three
seconds later is not part of the model). -/
def applyEvent (s : State) : Event → State
  | .setLoading value => { s with loading := value }
  | .setTranslatedContent markup => { s with translatedContent := markup }
  | .displayToast message => { s with toastMessage := message, showToast := true }
  | _ => s

/-- The URLs requested with `fetch`, in order. -/
def requests : List Event → List String
  | [] => []
  | .fetch url :: rest => url :: requests rest
  | _ :: rest => requests rest

/-! ## translateText (lines 44 to 54) -/

/-- The template of line 46. -/
def translateUrl (B : Browser) (text targetLang : String) : String :=
  "https://translate.googleapis.com/translate_a/single?client=gtx&sl=auto&tl=" ++ targetLang ++
    "&dt=t&q=" ++ B.encodeURIComponent text

/-- The body of the `try` of `translateText`: fetch, read the JSON, pick the text. -/
def translateResult (B : Browser) (k : Nat) (text targetLang : String) : Except String String :=
  match B.fetch k (translateUrl B text targetLang) with
  | .error e => .error e
  | .ok response =>
    match response.json with
    | .error e => .error e
    | .ok data => parseTranslation data

/-- The function `translateText`: one request; an error is logged and thrown again. -/
def translateText (B : Browser) (k : Nat) (text targetLang : String) :
    List Event × Except String String :=
  match translateResult B k text targetLang with
  | .ok translated => ([.fetch (translateUrl B text targetLang)], .ok translated)
  | .error e => ([.fetch (translateUrl B text targetLang), .consoleError e], .error e)

/-! ## translateWebsite (lines 56 to 119) -/

/-- The loop of lines 91 to 101 over the collected references; `k` counts the requests
issued so far. A failed translation is logged and the node keeps its text. -/
def translateLoop (B : Browser) (lang : String) :
    List Path → Nat → List Node → List Event × List Node
  | [], _, body => ([], body)
  | node :: rest, k, body =>
    let text := jsTrim ((textAt body node).getD "")
    if 0 < text.length then
      match translateText B k text lang with
      | (events, .ok translated) =>
        let next := translateLoop B lang rest (k + 1) (setText body node translated)
        (events ++ next.1, next.2)
      | (events, .error e) =>
        let next := translateLoop B lang rest (k + 1) body
        (events ++ [.consoleError e] ++ next.1, next.2)
    else translateLoop B lang rest k body

/-- Value of an attribute. -/
def getAttr (attrs : List (String × String)) (name : String) : Option String :=
  attrs.lookup name

/-- The method `setAttribute`: the value is replaced in place, or the attribute is added. -/
def setAttr : List (String × String) → String → String → List (String × String)
  | [], name, value => [(name, value)]
  | (n, v) :: rest, name, value =>
    if n = name then (n, value) :: rest else (n, v) :: setAttr rest name value

/-- ASCII lower case, as selectors compare the value of `rel`. -/
def asciiLower (s : String) : String :=
  String.mk (s.toList.map fun c => if 'A' ≤ c ∧ c ≤ 'Z' then Char.ofNat (c.toNat + 32) else c)

/-- The selector `img, link[rel="stylesheet"], script` of line 103. -/
def isAsset (tag : String) (attrs : List (String × String)) : Bool :=
  tag == "img" || (tag == "link" && (getAttr attrs "rel").map asciiLower == some "stylesheet") ||
    tag == "script"

/-- The property `el.src`: images and scripts have one, reflecting the attribute as a URL
(the empty string without the attribute); on a link element it is `undefined`. -/
def srcProperty (B : Browser) (baseURI tag : String) (attrs : List (String × String)) :
    Option String :=
  if tag = "img" ∨ tag = "script" then
    some (((getAttr attrs "src").map (B.reflectURL baseURI)).getD "")
  else none

/-- The property `el.href`: a link element has one, reflecting the attribute as a URL; on
images and scripts it is `undefined`. -/
def hrefProperty (B : Browser) (baseURI tag : String) (attrs : List (String × String)) :
    Option String :=
  if tag = "link" then
    some (((getAttr attrs "href").map (B.reflectURL baseURI)).getD "")
  else none

/-- One of the two statements of the callback of line 103: when the property is truthy, the
attribute is set to `new URL(property, url).href`. -/
def rewriteAttr (B : Browser) (url name : String) (property : Option String)
    (attrs : List (String × String)) : Except String (List (String × String)) :=
  match property with
  | none => .ok attrs
  | some value =>
    if value = "" then .ok attrs
    else
      match B.urlHref value url with
      | .error e => .error e
      | .ok href => .ok (setAttr attrs name href)

/-- The callback of lines 103 to 110 on one element. -/
def rewriteElement (B : Browser) (baseURI url tag : String) (attrs : List (String × String)) :
    Except String (List (String × String)) :=
  if isAsset tag attrs then
    match rewriteAttr B url "src" (srcProperty B baseURI tag attrs) attrs with
    | .error e => .error e
    | .ok attrs1 => rewriteAttr B url "href" (hrefProperty B baseURI tag attrs1) attrs1
  else .ok attrs

mutual
/-- Lines 103 to 110 on one node and its descendants, in document order: the element first,
then its children. -/
def resolveNode (B : Browser) (baseURI url : String) : Node → Except String Node
  | .text data => .ok (.text data)
  | .comment data => .ok (.comment data)
  | .element tag attrs children =>
    match rewriteElement B baseURI url tag attrs with
    | .error e => .error e
    | .ok attrs1 =>
      match resolveAssets B baseURI url children with
      | .error e => .error e
      | .ok children1 => .ok (.element tag attrs1 children1)
  | .template attrs content => .ok (.template attrs content)
/-- Lines 103 to 110 on a list of siblings: the elements are visited in document order and
the first exception ends the visit. -/
def resolveAssets (B : Browser) (baseURI url : String) : List Node → Except String (List Node)
  | [] => .ok []
  | n :: rest =>
    match resolveNode B baseURI url n with
    | .error e => .error e
    | .ok n1 =>
      match resolveAssets B baseURI url rest with
      | .error e => .error e
      | .ok rest1 => .ok (n1 :: rest1)
end

/-- Lines 103 to 110 on the document: head first, then body. -/
def resolveDocument (B : Browser) (url : String) (doc : Document) : Except String Document :=
  match resolveAssets B doc.baseURI url doc.head with
  | .error e => .error e
  | .ok head1 =>
    match resolveAssets B doc.baseURI url doc.body with
    | .error e => .error e
    | .ok body1 => .ok { doc with head := head1, body := body1 }

/-- The URL of line 66. -/
def proxyUrl (B : Browser) (url : String) : String :=
  "https://api.allorigins.win/raw?url=" ++ B.encodeURIComponent url

/-- Lines 70 to 110, from the parsed document on: the events and the document that reaches
line 112, or the message of the exception thrown. -/
def processDocument (B : Browser) (url lang : String) (parsed : Document) :
    List Event × Except String Document :=
  let doc := removeScriptElements parsed
  let translated := translateLoop B lang (textNodes doc.body) 1 doc.body
  (translated.1, resolveDocument B url { doc with body := translated.2 })

/-- The body of the `try` of `translateWebsite`, lines 66 to 110. The status of the proxy
response is not read. -/
def pipeline (B : Browser) (url lang : String) : List Event × Except String Document :=
  match B.fetch 0 (proxyUrl B url) with
  | .error e => ([.fetch (proxyUrl B url)], .error e)
  | .ok response =>
    match response.text with
    | .error e => ([.fetch (proxyUrl B url)], .error e)
    | .ok html =>
      match B.parseFromString html with
      | .error e => ([.fetch (proxyUrl B url), .parse html], .error e)
      | .ok parsed =>
        let result := processDocument B url lang parsed
        (.fetch (proxyUrl B url) :: .parse html :: result.1, result.2)

/-- How a run ended. -/
inductive Outcome where
  | rejected
  | done (doc : Document)
  | failed (message : String)

/-- The end of a run: `rejected` by the guard of line 57, `done` with the document whose
body is serialised at line 112, or `failed` in the `catch` of line 114. -/
def outcome (B : Browser) (s : State) : Outcome :=
  if s.url = "" then .rejected
  else
    match (pipeline B s.url s.selectedLanguage).2 with
    | .ok doc => .done doc
    | .error e => .failed e

/-- The function `translateWebsite`: the events of one run started in state `s`. -/
def translateWebsite (B : Browser) (s : State) : List Event :=
  if s.url = "" then [.displayToast "Please enter a valid URL"]
  else
    [.setLoading true, .setTranslatedContent ""] ++
      (pipeline B s.url s.selectedLanguage).1 ++
      (match (pipeline B s.url s.selectedLanguage).2 with
        | .ok doc =>
          [.setTranslatedContent (B.innerHTML doc.body),
            .displayToast "Translation completed successfully!"]
        | .error e => [.displayToast ("Error: " ++ e)]) ++
      [.setLoading false]

/-- The state of the component after a run started in state `s`. -/
def finalState (B : Browser) (s : State) : State :=
  (translateWebsite B s).foldl applyEvent s

/-- The text a unit ends with when its call is request number `k` of the run: the translation
when the call succeeded, its own text when the call failed. -/
def unitText (B : Browser) (lang : String) (k : Nat) (d : String) : String :=
  match translateResult B k (jsTrim d) lang with
  | .ok translated => translated
  | .error _ => d

/-- What `setText` does to the child its reference starts with, given the rest of the
reference. -/
def setNode (n : Node) (rest : Path) (value : String) : Node :=
  match n, rest with
  | .text _, [] => .text value
  | .element tag attrs children, j :: r => .element tag attrs (setText children (j :: r) value)
  | other, _ => other

/-- The text the translate-and-replace step assigns to a node, given the text the node
holds: none when the trimmed text is empty or the call fails. -/
def stepText (B : Browser) (lang : String) (held : Option String) : Option String :=
  if 0 < (jsTrim (held.getD "")).length then
    match translateResult B 0 (jsTrim (held.getD "")) lang with
    | .ok translated => some translated
    | .error _ => none
  else none

/-- The translate-and-replace step of lines 92 to 100 on one unit: the tree it leaves. -/
def translateStep (B : Browser) (lang : String) (tree : List Node) (node : Path) : List Node :=
  (translateLoop B lang [node] 0 tree).2

/-! ## A concrete browser for the examples -/

/-- Upper-case hexadecimal digit. -/
def hexDigit (n : Nat) : Char :=
  if n < 10 then Char.ofNat (48 + n) else Char.ofNat (55 + n)

/-- UTF-8 bytes of a code point. -/
def utf8Bytes (n : Nat) : List Nat :=
  if n < 0x80 then [n]
  else if n < 0x800 then [0xC0 + n / 64, 0x80 + n % 64]
  else if n < 0x10000 then [0xE0 + n / 4096, 0x80 + n / 64 % 64, 0x80 + n % 64]
  else [0xF0 + n / 262144, 0x80 + n / 4096 % 64, 0x80 + n / 64 % 64, 0x80 + n % 64]

/-- The characters `encodeURIComponent` leaves as they are. -/
def isUnreserved (c : Char) : Bool :=
  c.isAlphanum || c == '-' || c == '_' || c == '.' || c == '!' || c == '~' || c == '*' ||
    c.toNat == 39 || c == '(' || c == ')'

/-- The function `encodeURIComponent`. -/
def demoEncode (s : String) : String :=
  String.mk (s.toList.flatMap fun c =>
    if isUnreserved c then [c]
    else (utf8Bytes c.toNat).flatMap fun b => ['%', hexDigit (b / 16), hexDigit (b % 16)])

/-- Whether a string starts with `http://` or `https://`. -/
def hasScheme (s : String) : Bool :=
  "http://".toList.isPrefixOf s.toList || "https://".toList.isPrefixOf s.toList

/-- Scheme and host of an absolute URL. -/
def originOf (base : String) : String :=
  String.mk (base.toList.takeWhile (· != ':') ++ "://".toList ++
    ((base.toList.dropWhile (· != ':')).drop 3).takeWhile (· != '/'))

/-- A small `new URL(input, base).href`, enough for the examples: the base must be an
absolute http or https URL, or the constructor throws; an absolute input is returned as it
is and an input that starts with a slash is put after the origin of the base. -/
def demoUrlHref (input base : String) : Except String String :=
  if !hasScheme base then .error "Invalid base URL"
  else if hasScheme input then .ok input
  else if "/".toList.isPrefixOf input.toList then .ok (originOf base ++ input)
  else .error "Invalid URL"

/-- The URL-reflecting property of the HTML standard: the attribute value parsed against
the base URL of the document, or the value itself when that fails. -/
def demoReflect (baseURI value : String) : String :=
  match demoUrlHref value baseURI with
  | .ok resolved => resolved
  | .error _ => value

/-- Escaping of text in the serialisation. -/
def escapeText (s : String) : String :=
  String.mk (s.toList.flatMap fun c =>
    if c == '&' then "&amp;".toList
    else if c == '<' then "&lt;".toList
    else if c == '>' then "&gt;".toList
    else [c])

/-- Escaping of an attribute value in the serialisation. -/
def escapeAttr (s : String) : String :=
  String.mk (s.toList.flatMap fun c =>
    if c == '&' then "&amp;".toList
    else if c == '"' then "&quot;".toList
    else [c])

/-- The attributes of a start tag. -/
def attrsMarkup : List (String × String) → String
  | [] => ""
  | (n, v) :: rest => " " ++ n ++ "=\"" ++ escapeAttr v ++ "\"" ++ attrsMarkup rest

/-- Elements without an end tag. -/
def voidTags : List String :=
  ["area", "base", "br", "col", "embed", "hr", "img", "input", "link", "meta", "source",
    "track", "wbr"]

/-- Elements whose text is serialised as it is. -/
def rawTextTags : List String :=
  ["style", "script", "xmp", "iframe", "noembed", "noframes", "plaintext"]

mutual
/-- A small serialisation of one node; `raw` says that the parent is a raw text element. -/
def demoOuterHTML (raw : Bool) : Node → String
  | .text d => if raw then d else escapeText d
  | .comment d => "<!--" ++ d ++ "-->"
  | .element t a cs =>
    "<" ++ t ++ attrsMarkup a ++ ">" ++
      (if voidTags.contains t then ""
        else demoInnerHTML (rawTextTags.contains t) cs ++ "</" ++ t ++ ">")
  | .template a content =>
    "<template" ++ attrsMarkup a ++ ">" ++ demoInnerHTML false content ++ "</template>"
/-- A small `innerHTML`: the serialisation of a list of siblings. -/
def demoInnerHTML (raw : Bool) : List Node → String
  | [] => ""
  | n :: rest => demoOuterHTML raw n ++ demoInnerHTML raw rest
end

/-- The JSON the translation endpoint answers with for one sentence. -/
def demoJson (translated source : String) : JsVal :=
  .arr [.arr [.arr [.str translated, .str source, .null, .null, .num "10"]], .null, .str "en"]

/-- A network where the proxy answers with the given status and the second of three
translation calls fails. -/
def demoFetch (status : Nat) (k : Nat) (_ : String) : Except String Response :=
  match k with
  | 0 => .ok ⟨status, .ok "<html>", .error "Unexpected token"⟩
  | 1 => .ok ⟨200, .ok "", .ok (demoJson "Hola" "Hello")⟩
  | 2 => .error "Failed to fetch"
  | _ => .ok ⟨200, .ok "", .ok (demoJson "tres" "three")⟩

/-- The page of the examples: the document the parser gives for it, in the application
served from `http://localhost:3000/`. -/
def demoDocument : Document :=
  { baseURI := "http://localhost:3000/"
    head := [.element "link" [("rel", "stylesheet"), ("href", "https://example.com/s.css")] []]
    body :=
      [.element "p" [] [.text "Hello"],
        .element "script" [] [.text "evil()"],
        .element "img" [("src", "https://example.com/a.png")] [],
        .text "\n  ",
        .element "a" [("href", "/x")] [.text "two"],
        .element "p" [] [.text " three "]] }

/-- A page with one image of relative address, in the same application. -/
def relativeImagePage : Document :=
  { baseURI := "http://localhost:3000/"
    head := []
    body := [.element "img" [("src", "/a.png")] []] }

/-- The page `<p>Hello</p><template><p>in</p><script>z()</script></template>` as the parser
gives it: the paragraph and the script of the template are in its content fragment. -/
def templatePage : Document :=
  { baseURI := "http://localhost:3000/"
    head := []
    body :=
      [.element "p" [] [.text "Hello"],
        .template [] [.element "p" [] [.text "in"], .element "script" [] [.text "z()"]]] }

/-- The page `<style>p { color: red }</style>`: the style sheet is a text node. -/
def stylePage : Document :=
  { baseURI := "http://localhost:3000/"
    head := []
    body := [.element "style" [] [.text "p { color: red }"]] }

/-- A browser for the examples, with the proxy status and the parsed page as parameters. -/
def demoBrowser (status : Nat) (doc : Document) : Browser :=
  { fetch := demoFetch status
    encodeURIComponent := demoEncode
    parseFromString := fun _ => .ok doc
    urlHref := demoUrlHref
    reflectURL := demoReflect
    innerHTML := demoInnerHTML false }

/-- A browser without network: every `fetch` rejects. -/
def offlineBrowser : Browser :=
  { demoBrowser 200 demoDocument with fetch := fun _ _ => .error "Failed to fetch" }

/-- A browser whose translation endpoint answers by the request alone: `Hola` for a request
for `Hello`, a failure for any other. -/
def steadyBrowser : Browser :=
  { demoBrowser 200 demoDocument with
    fetch := fun _ u =>
      if "Hello".toList.isSuffixOf u.toList then .ok ⟨200, .ok "", .ok (demoJson "Hola" "Hello")⟩
      else .error "Failed to fetch" }

/-- A browser whose translation endpoint answers every request with markup: the end of a
style element followed by a script element. -/
def markupBrowser : Browser :=
  { demoBrowser 200 stylePage with
    fetch := fun k _ =>
      match k with
      | 0 => .ok ⟨200, .ok "<html>", .error "Unexpected token"⟩
      | _ => .ok ⟨200, .ok "", .ok (demoJson "</style><script>evil()</script>" "p")⟩ }

/-- The state of the component with a page address typed in. -/
def demoState (url : String) : State :=
  { url := url, selectedLanguage := "es", loading := false, translatedContent := "old",
    showToast := false, toastMessage := "" }

/-! ## Theorems -/

theorem textsNode_eq (p : Path) (n : Node) (up : List Frame) (h : framesPath up = p) :
    textsNode p n ++ upTexts up =
      (match n with
        | .text data => [(p, data)]
        | _ => []) ++ restTexts ⟨n, up⟩ := by
  cases n with
  | text data => simp [textsNode, restTexts]
  | comment data => simp [textsNode, restTexts]
  | template ta tc => simp [textsNode, restTexts]
  | element tag attrs children => simp [textsNode, restTexts, Loc.path, framesPath] at h ⊢; rw [h]

theorem countNode_eq (n : Node) (up : List Frame) :
    countNode n + upCount up = restCount ⟨n, up⟩ + 1 := by
  cases n with
  | text data => simp [countNode, restCount]; omega
  | comment data => simp [countNode, restCount]; omega
  | template ta tc => simp [countNode, restCount]; omega
  | element tag attrs children => simp [countNode, restCount]; omega

/-- The node `n` is the next node after `l` in document order. -/
theorem firstChild_some (l c : Loc) (h : l.firstChild = some c) :
    restTexts l = textsNode c.path c.node ++ upTexts c.up ∧
      restCount l = countNode c.node + upCount c.up := by
  obtain ⟨node, up⟩ := l
  cases node with
  | text data => simp [Loc.firstChild] at h
  | comment data => simp [Loc.firstChild] at h
  | template ta tc => simp [Loc.firstChild] at h
  | element tag attrs children =>
    cases children with
    | nil => simp [Loc.firstChild] at h
    | cons c0 rest =>
      simp only [Loc.firstChild, Option.some.injEq] at h
      subst h
      simp [restTexts, restCount, textsForest, countForest, upTexts, upCount, Loc.path,
        framesPath]
      omega

theorem firstChild_none (l : Loc) (h : l.firstChild = none) :
    restTexts l = upTexts l.up ∧ restCount l = upCount l.up := by
  obtain ⟨node, up⟩ := l
  cases node with
  | text data => simp [restTexts, restCount]
  | comment data => simp [restTexts, restCount]
  | template ta tc => simp [restTexts, restCount]
  | element tag attrs children =>
    cases children with
    | nil => simp [restTexts, restCount, textsForest, countForest]
    | cons c0 rest => simp [Loc.firstChild] at h

theorem followingFrom_some (up : List Frame) : ∀ (n : Node) (s : Loc),
    followingFrom n up = some s →
      upTexts up = textsNode s.path s.node ++ upTexts s.up ∧
        upCount up = countNode s.node + upCount s.up := by
  induction up with
  | nil => intro n s h; simp [followingFrom] at h
  | cons f up ih =>
    intro n s h
    obtain ⟨before, tag, attrs, after⟩ := f
    cases after with
    | nil =>
      simp only [followingFrom] at h
      have := ih _ s h
      simpa [upTexts, upCount, textsForest, countForest] using this
    | cons sib rest =>
      simp only [followingFrom, Option.some.injEq] at h
      subst h
      simp [upTexts, upCount, textsForest, countForest, Loc.path, framesPath]
      omega

theorem followingFrom_none (up : List Frame) : ∀ (n : Node),
    followingFrom n up = none → upTexts up = [] ∧ upCount up = 0 := by
  induction up with
  | nil => intro n _; simp [upTexts, upCount]
  | cons f up ih =>
    intro n h
    obtain ⟨before, tag, attrs, after⟩ := f
    cases after with
    | nil =>
      simp only [followingFrom] at h
      have := ih _ h
      simpa [upTexts, upCount, textsForest, countForest] using this
    | cons sib rest => simp [followingFrom] at h

/-- What `nextNode` finds when it moves to the node `n` that follows `l`. -/
theorem step_shape (l n : Loc)
    (h : restTexts l = textsNode n.path n.node ++ upTexts n.up ∧
      restCount l = countNode n.node + upCount n.up) :
    restCount l = restCount n + 1 ∧
      (showText n.node = true →
        ∃ d, n.node = .text d ∧ restTexts l = (n.path, d) :: restTexts n) ∧
      (showText n.node = false → restTexts l = restTexts n) := by
  obtain ⟨node, up⟩ := n
  obtain ⟨h1, h2⟩ := h
  have e := textsNode_eq (framesPath up) node up rfl
  have c := countNode_eq node up
  simp only [Loc.path] at h1
  simp only [framesPath] at e
  rw [e] at h1
  refine ⟨by simp only at h2; omega, ?_, ?_⟩
  · intro hs
    cases node with
    | text data => exact ⟨data, rfl, by simpa [Loc.path] using h1⟩
    | comment data => simp [showText] at hs
    | template ta tc => simp [showText] at hs
    | element tag attrs children => simp [showText] at hs
  · intro hs
    cases node with
    | text data => simp [showText] at hs
    | comment data => simpa using h1
    | template ta tc => simpa using h1
    | element tag attrs children => simpa using h1

theorem nextNode_spec : ∀ (fuel : Nat) (l : Loc), restCount l < fuel →
    (restTexts l = [] → nextNode fuel l = none) ∧
      (∀ p d tl, restTexts l = (p, d) :: tl →
        ∃ n, nextNode fuel l = some n ∧ n.path = p ∧ n.node = .text d ∧
          restTexts n = tl ∧ restCount n < restCount l) := by
  intro fuel
  induction fuel with
  | zero => intro l h; omega
  | succ fuel ih =>
    intro l hl
    -- the node that follows `l`, if any
    have key : ∀ n : Loc,
        (restTexts l = textsNode n.path n.node ++ upTexts n.up ∧
          restCount l = countNode n.node + upCount n.up) →
        ((restTexts l = [] →
            (if showText n.node then some n else nextNode fuel n) = none) ∧
          (∀ p d tl, restTexts l = (p, d) :: tl →
            ∃ m, (if showText n.node then some n else nextNode fuel n) = some m ∧
              m.path = p ∧ m.node = .text d ∧ restTexts m = tl ∧
              restCount m < restCount l)) := by
      intro n hn
      obtain ⟨hc, ht, hf⟩ := step_shape l n hn
      cases hs : showText n.node with
      | true =>
        obtain ⟨d, hd, hr⟩ := ht hs
        refine ⟨fun h0 => (by rw [hr] at h0; cases h0), ?_⟩
        intro p d' tl h
        rw [hr] at h
        simp only [List.cons.injEq, Prod.mk.injEq] at h
        obtain ⟨⟨hp, hdd⟩, htl⟩ := h
        exact ⟨n, by simp, hp, by rw [hd, hdd], htl, by omega⟩
      | false =>
        have hr := hf hs
        have hlt : restCount n < fuel := by omega
        obtain ⟨i1, i2⟩ := ih n hlt
        refine ⟨fun h0 => (by simpa using i1 (hr ▸ h0)), ?_⟩
        intro p d tl h
        obtain ⟨m, hm, r1, r2, r3, r4⟩ := i2 p d tl (hr ▸ h)
        exact ⟨m, by simpa using hm, r1, r2, r3, by omega⟩
    cases hfc : l.firstChild with
    | some c =>
      have := key c (firstChild_some l c hfc)
      simpa [nextNode, hfc] using this
    | none =>
      obtain ⟨e1, e2⟩ := firstChild_none l hfc
      cases hff : followingFrom l.node l.up with
      | none =>
        obtain ⟨z1, _⟩ := followingFrom_none l.up l.node hff
        refine ⟨fun _ => (by simp [nextNode, hfc, hff]), ?_⟩
        intro p d tl h
        rw [e1, z1] at h
        cases h
      | some s =>
        obtain ⟨f1, f2⟩ := followingFrom_some l.up l.node s hff
        have := key s ⟨by rw [e1, f1], by rw [e2, f2]⟩
        simpa [nextNode, hfc, hff] using this

theorem collectLoop_spec (limit : Nat) : ∀ (fuel : Nat) (l : Loc) (acc : List Path),
    restCount l < fuel → restCount l < limit →
      collectLoop limit fuel l acc =
        acc ++ ((restTexts l).filter fun u => hasText u.2).map Prod.fst := by
  intro fuel
  induction fuel with
  | zero => intro l acc h; omega
  | succ fuel ih =>
    intro l acc hl hlim
    obtain ⟨n1, n2⟩ := nextNode_spec limit l hlim
    cases hr : restTexts l with
    | nil => simp [collectLoop, n1 hr]
    | cons u tl =>
      obtain ⟨p, d⟩ := u
      obtain ⟨n, hn, hp, hd, htl, hc⟩ := n2 p d tl hr
      have i1 := ih n (acc ++ [p]) (by omega) (by omega)
      have i2 := ih n acc (by omega) (by omega)
      simp only [collectLoop, hn, hd, Node.textContent, hp]
      cases ht : hasText d with
      | true => simp [ht, i1, htl]
      | false => simp [ht, i2, htl]

theorem textNodes_eq (body : List Node) :
    textNodes body = (textUnits body).map Prod.fst := by
  have := collectLoop_spec (countForest body + 1) (countForest body + 1)
    ⟨.element "body" [] body, []⟩ [] (by simp [restCount, upCount])
    (by simp [restCount, upCount])
  simpa [textNodes, textUnits, restTexts, upTexts, Loc.path] using this

/-- Replacing the child `i` leaves the text at `q` when `q` is not the child itself and the
new child holds below it what the old one held. -/
theorem textAt_set_kind (b : List Node) (i : Nat) (x : Node) (q : Path) (hq : q ≠ [i])
    (hx : ∀ j rest, q = i :: j :: rest →
      (match x with
        | .element _ _ children => textAt children (j :: rest)
        | _ => none) = textAt b q)
    (hi : i < b.length) :
    textAt (b.set i x) q = textAt b q := by
  match q with
  | [] => simp [textAt]
  | [j] =>
    have hji : i ≠ j := fun h => hq (by rw [h])
    simp [textAt, List.getElem?_set, hji]
  | j :: j2 :: rest =>
    by_cases hji : i = j
    · subst hji
      have := hx j2 rest rfl
      rw [← this]
      simp only [textAt, List.getElem?_set, hi, if_true]
      cases x <;> simp
    · simp [textAt, List.getElem?_set, hji]

theorem textAt_setText_ne : ∀ (p q : Path) (b : List Node) (v : String), q ≠ p →
    textAt (setText b p v) q = textAt b q := by
  intro p
  induction p with
  | nil => intro q b v _; simp [setText]
  | cons i ps ih =>
    intro q b v hq
    cases ps with
    | nil =>
      simp only [setText]
      cases hb : b[i]? with
      | none => simp
      | some n =>
        have hi : i < b.length := by
          rcases List.getElem?_eq_some_iff.1 hb with ⟨h, _⟩; exact h
        cases n with
        | text d =>
          simp only
          apply textAt_set_kind b i _ q hq _ hi
          intro j rest hqe
          subst hqe
          simp [textAt, hb]
        | comment d => simp
        | template ta tc => simp
        | element t a cs => simp
    | cons i2 ps2 =>
      simp only [setText]
      cases hb : b[i]? with
      | none => simp
      | some n =>
        have hi : i < b.length := by
          rcases List.getElem?_eq_some_iff.1 hb with ⟨h, _⟩; exact h
        cases n with
        | text d => simp
        | comment d => simp
        | template ta tc => simp
        | element t a cs =>
          simp only
          by_cases hqi : q = [i]
          · subst hqi
            simp [textAt, List.getElem?_set, hi, hb]
          · apply textAt_set_kind b i _ q hqi _ hi
            intro j rest hqe
            subst hqe
            simp only [textAt, hb]
            apply ih
            intro h
            apply hq
            rw [h]

theorem textAt_setText_same : ∀ (p : Path) (b : List Node) (v d : String),
    textAt b p = some d → textAt (setText b p v) p = some v := by
  intro p
  induction p with
  | nil => intro b v d h; simp [textAt] at h
  | cons i ps ih =>
    intro b v d h
    cases ps with
    | nil =>
      simp only [textAt] at h
      cases hb : b[i]? with
      | none => simp [hb] at h
      | some n =>
        have hi : i < b.length := by
          rcases List.getElem?_eq_some_iff.1 hb with ⟨h, _⟩; exact h
        cases n with
        | text d0 => simp [setText, textAt, hb, List.getElem?_set, hi]
        | comment d0 => simp [hb] at h
        | template ta tc => simp [hb] at h
        | element t a cs => simp [hb] at h
    | cons i2 ps2 =>
      simp only [textAt] at h
      cases hb : b[i]? with
      | none => simp [hb] at h
      | some n =>
        have hi : i < b.length := by
          rcases List.getElem?_eq_some_iff.1 hb with ⟨h, _⟩; exact h
        cases n with
        | text d0 => simp [hb] at h
        | comment d0 => simp [hb] at h
        | template ta tc => simp [hb] at h
        | element t a cs =>
          simp only [hb] at h
          simp only [setText, textAt, hb, List.getElem?_set, hi, if_true]
          exact ih cs v d h

theorem scriptCount_set : ∀ (b : List Node) (i : Nat) (n x : Node), b[i]? = some n →
    scriptCountNode x = scriptCountNode n → scriptCount (b.set i x) = scriptCount b := by
  intro b
  induction b with
  | nil => intro i n x h; simp at h
  | cons a rest ih =>
    intro i n x h hx
    cases i with
    | zero =>
      simp at h
      subst h
      simp [scriptCount, hx]
    | succ k =>
      simp at h
      simp [scriptCount, ih k n x h hx]

theorem scriptCount_setText : ∀ (p : Path) (b : List Node) (v : String),
    scriptCount (setText b p v) = scriptCount b := by
  intro p
  induction p with
  | nil => intro b v; simp [setText]
  | cons i ps ih =>
    intro b v
    cases ps with
    | nil =>
      simp only [setText]
      cases hb : b[i]? with
      | none => simp
      | some n =>
        cases n with
        | text d => exact scriptCount_set b i _ _ hb (by simp [scriptCountNode])
        | comment d => simp
        | template ta tc => simp
        | element t a cs => simp
    | cons i2 ps2 =>
      simp only [setText]
      cases hb : b[i]? with
      | none => simp
      | some n =>
        cases n with
        | text d => simp
        | comment d => simp
        | template ta tc => simp
        | element t a cs =>
          exact scriptCount_set b i _ _ hb (by simp [scriptCountNode, ih])

theorem textsForest_text (parent : Path) (i : Nat) (d : String) (rest : List Node) :
    textsForest parent i (.text d :: rest) =
      (parent ++ [i], d) :: textsForest parent (i + 1) rest := by
  simp [textsForest, textsNode]

theorem textsForest_comment (parent : Path) (i : Nat) (d : String) (rest : List Node) :
    textsForest parent i (.comment d :: rest) = textsForest parent (i + 1) rest := by
  simp [textsForest, textsNode]

theorem textsForest_template (parent : Path) (i : Nat) (a : List (String × String))
    (c rest : List Node) :
    textsForest parent i (.template a c :: rest) = textsForest parent (i + 1) rest := by
  simp [textsForest, textsNode]

theorem textsForest_element (parent : Path) (i : Nat) (t : String)
    (a : List (String × String)) (cs rest : List Node) :
    textsForest parent i (.element t a cs :: rest) =
      textsForest (parent ++ [i]) 0 cs ++ textsForest parent (i + 1) rest := by
  simp [textsForest, textsNode]

theorem textAt_cons_succ (n : Node) (rest : List Node) (k : Nat) (q : Path) :
    textAt (n :: rest) ((k + 1) :: q) = textAt rest (k :: q) := by
  cases q <;> simp [textAt]

/-- Every listed text node is where its reference says, under the parent, at a child index
not below `i`. -/
theorem textsForest_mem : ∀ (nodes : List Node) (parent : Path) (i : Nat) (p : Path)
    (d : String), (p, d) ∈ textsForest parent i nodes →
      ∃ k q, p = parent ++ (i + k) :: q ∧ textAt nodes (k :: q) = some d
  | [], parent, i, p, d, h => by simp [textsForest] at h
  | .text d0 :: rest, parent, i, p, d, h => by
    rw [textsForest_text] at h
    rcases List.mem_cons.1 h with h | h
    · simp only [Prod.mk.injEq] at h
      exact ⟨0, [], by simp [h.1], by simp [textAt, h.2]⟩
    · obtain ⟨k, q, hp, ht⟩ := textsForest_mem rest parent (i + 1) p d h
      exact ⟨k + 1, q, by rw [hp]; congr 2; omega, by rw [textAt_cons_succ]; exact ht⟩
  | .comment d0 :: rest, parent, i, p, d, h => by
    rw [textsForest_comment] at h
    obtain ⟨k, q, hp, ht⟩ := textsForest_mem rest parent (i + 1) p d h
    exact ⟨k + 1, q, by rw [hp]; congr 2; omega, by rw [textAt_cons_succ]; exact ht⟩
  | .template ta tc :: rest, parent, i, p, d, h => by
    rw [textsForest_template] at h
    obtain ⟨k, q, hp, ht⟩ := textsForest_mem rest parent (i + 1) p d h
    exact ⟨k + 1, q, by rw [hp]; congr 2; omega, by rw [textAt_cons_succ]; exact ht⟩
  | .element t a cs :: rest, parent, i, p, d, h => by
    rw [textsForest_element] at h
    rcases List.mem_append.1 h with h | h
    · obtain ⟨k, q, hp, ht⟩ := textsForest_mem cs (parent ++ [i]) 0 p d h
      exact ⟨0, k :: q, by simp [hp], by simpa [textAt] using ht⟩
    · obtain ⟨k, q, hp, ht⟩ := textsForest_mem rest parent (i + 1) p d h
      exact ⟨k + 1, q, by rw [hp]; congr 2; omega, by rw [textAt_cons_succ]; exact ht⟩

/-- No two listed text nodes have the same reference. -/
theorem textsForest_nodup : ∀ (nodes : List Node) (parent : Path) (i : Nat),
    ((textsForest parent i nodes).map Prod.fst).Nodup
  | [], parent, i => by simp [textsForest]
  | .text d0 :: rest, parent, i => by
    rw [textsForest_text, List.map_cons, List.nodup_cons]
    refine ⟨?_, textsForest_nodup rest parent (i + 1)⟩
    intro hm
    obtain ⟨⟨p, d⟩, hmem, hp⟩ := List.mem_map.1 hm
    obtain ⟨k, q, hpq, _⟩ := textsForest_mem rest parent (i + 1) p d hmem
    simp only at hp
    rw [hpq] at hp
    have := List.append_cancel_left hp
    simp at this
    omega
  | .comment d0 :: rest, parent, i => by
    rw [textsForest_comment]
    exact textsForest_nodup rest parent (i + 1)
  | .template ta tc :: rest, parent, i => by
    rw [textsForest_template]
    exact textsForest_nodup rest parent (i + 1)
  | .element t a cs :: rest, parent, i => by
    rw [textsForest_element, List.map_append, List.nodup_append]
    refine ⟨textsForest_nodup cs (parent ++ [i]) 0, textsForest_nodup rest parent (i + 1), ?_⟩
    intro x hx1 hx2
    obtain ⟨⟨p, d⟩, hmem, hp⟩ := List.mem_map.1 hx1
    obtain ⟨⟨p2, d2⟩, hmem2, hp2⟩ := List.mem_map.1 hx2
    obtain ⟨k, q, hpq, _⟩ := textsForest_mem cs (parent ++ [i]) 0 p d hmem
    obtain ⟨k2, q2, hpq2, _⟩ := textsForest_mem rest parent (i + 1) p2 d2 hmem2
    simp only at hp hp2
    rw [← hp2, hpq2, hpq] at hp
    rw [List.append_assoc] at hp
    have := List.append_cancel_left hp
    simp at this
    omega

/-- The extracted units: each is a text node of the body with text left after trimming, and
no node is listed twice. -/
theorem textUnits_sound (body : List Node) :
    ((textUnits body).map Prod.fst).Nodup ∧
      ∀ u ∈ textUnits body, textAt body u.1 = some u.2 ∧ hasText u.2 = true := by
  constructor
  · have h := textsForest_nodup body [] 0
    exact (List.Sublist.map Prod.fst (List.filter_sublist _)).nodup h
  · intro u hu
    obtain ⟨hm, ht⟩ := List.mem_filter.1 hu
    obtain ⟨k, q, hp, hat⟩ := textsForest_mem body [] 0 u.1 u.2 hm
    simp only [List.nil_append, Nat.zero_add] at hp
    exact ⟨by rw [hp]; exact hat, by simpa using ht⟩

theorem requests_append (a b : List Event) : requests (a ++ b) = requests a ++ requests b := by
  induction a with
  | nil => simp [requests]
  | cons e rest ih => cases e <;> simp [requests, ih]

/-- One turn of the loop on a unit whose node still holds its extracted text. -/
theorem translateLoop_cons (B : Browser) (lang : String) (p : Path) (rest : List Path)
    (k : Nat) (body : List Node) (d : String) (hd : textAt body p = some d)
    (ht : hasText d = true) :
    translateLoop B lang (p :: rest) k body =
      match translateResult B k (jsTrim d) lang with
      | .ok translated =>
        (.fetch (translateUrl B (jsTrim d) lang) ::
            (translateLoop B lang rest (k + 1) (setText body p translated)).1,
          (translateLoop B lang rest (k + 1) (setText body p translated)).2)
      | .error e =>
        (.fetch (translateUrl B (jsTrim d) lang) :: .consoleError e :: .consoleError e ::
            (translateLoop B lang rest (k + 1) body).1,
          (translateLoop B lang rest (k + 1) body).2) := by
  have ht2 : 0 < (jsTrim d).length := by simpa [hasText] using ht
  cases hr : translateResult B k (jsTrim d) lang with
  | ok t => simp [translateLoop, hd, ht2, translateText, hr]
  | error e => simp [translateLoop, hd, ht2, translateText, hr]

theorem translateLoop_scriptCount (B : Browser) (lang : String) : ∀ (ps : List Path) (k : Nat)
    (body : List Node), scriptCount (translateLoop B lang ps k body).2 = scriptCount body := by
  intro ps
  induction ps with
  | nil => intro k body; simp [translateLoop]
  | cons p rest ih =>
    intro k body
    simp only [translateLoop]
    split
    · cases hr : translateResult B k (jsTrim ((textAt body p).getD "")) lang with
      | ok t => simp [translateText, hr, ih, scriptCount_setText]
      | error e => simp [translateText, hr, ih]
    · exact ih k body

theorem translateLoop_spec (B : Browser) (lang : String) : ∀ (us : List (Path × String))
    (k : Nat) (body : List Node), (us.map Prod.fst).Nodup →
    (∀ u ∈ us, textAt body u.1 = some u.2 ∧ hasText u.2 = true) →
    requests (translateLoop B lang (us.map Prod.fst) k body).1 =
        us.map (fun u => translateUrl B (jsTrim u.2) lang) ∧
      (∀ q, q ∉ us.map Prod.fst →
        textAt (translateLoop B lang (us.map Prod.fst) k body).2 q = textAt body q) ∧
      (∀ i (h : i < us.length),
        textAt (translateLoop B lang (us.map Prod.fst) k body).2 (us.get ⟨i, h⟩).1 =
          some (unitText B lang (k + i) (us.get ⟨i, h⟩).2)) := by
  intro us
  induction us with
  | nil => intro k body _ _; simp [translateLoop, requests]
  | cons u rest ih =>
    intro k body hnd hall
    obtain ⟨p, d⟩ := u
    obtain ⟨hd, ht⟩ := hall (p, d) (List.mem_cons_self _ _)
    simp only at hd ht
    simp only [List.map_cons, List.nodup_cons] at hnd
    obtain ⟨hp, hnd⟩ := hnd
    -- the tree after the first turn
    have hbody : ∀ t : Option String, ∃ body1 : List Node,
        body1 = (match t with | some t => setText body p t | none => body) ∧
        (∀ q, q ≠ p → textAt body1 q = textAt body q) ∧
        textAt body1 p = some (match t with | some t => t | none => d) := by
      intro t
      cases t with
      | none => exact ⟨body, rfl, fun _ _ => rfl, hd⟩
      | some t =>
        exact ⟨_, rfl, fun q hq => textAt_setText_ne p q body t hq,
          textAt_setText_same p body t d hd⟩
    have hstep : ∀ body1 : List Node, (∀ q, q ≠ p → textAt body1 q = textAt body q) →
        ∀ u ∈ rest, textAt body1 u.1 = some u.2 ∧ hasText u.2 = true := by
      intro body1 h1 u hu
      have hne : u.1 ≠ p := by
        intro h; apply hp; rw [← h]; exact List.mem_map_of_mem _ hu
      obtain ⟨a, b⟩ := hall u (List.mem_cons_of_mem _ hu)
      exact ⟨by rw [h1 _ hne]; exact a, b⟩
    rw [List.map_cons, translateLoop_cons B lang p _ k body d hd ht]
    cases hr : translateResult B k (jsTrim d) lang with
    | ok t =>
      obtain ⟨body1, hb, h1, h2⟩ := hbody (some t)
      simp only at hb h2
      subst hb
      obtain ⟨r1, r2, r3⟩ := ih (k + 1) _ hnd (hstep _ h1)
      refine ⟨by simp [requests, r1], ?_, ?_⟩
      · intro q hq
        simp only [List.mem_cons, not_or] at hq
        simp only
        rw [r2 q hq.2, h1 q hq.1]
      · intro i hi
        cases i with
        | zero =>
          simp only [List.get_eq_getElem, List.getElem_cons_zero, Nat.add_zero]
          rw [r2 p hp, h2]
          simp [unitText, hr]
        | succ j =>
          have := r3 j (by simpa using hi)
          simp only [List.get_eq_getElem, List.getElem_cons_succ] at this ⊢
          rw [this]
          congr 2
          omega
    | error e =>
      obtain ⟨body1, hb, h1, h2⟩ := hbody none
      simp only at hb h2
      subst hb
      obtain ⟨r1, r2, r3⟩ := ih (k + 1) _ hnd (hstep _ h1)
      refine ⟨by simp [requests, r1], ?_, ?_⟩
      · intro q hq
        simp only [List.mem_cons, not_or] at hq
        simp only
        rw [r2 q hq.2]
      · intro i hi
        cases i with
        | zero =>
          simp only [List.get_eq_getElem, List.getElem_cons_zero, Nat.add_zero]
          rw [r2 p hp, h2]
          simp [unitText, hr]
        | succ j =>
          have := r3 j (by simpa using hi)
          simp only [List.get_eq_getElem, List.getElem_cons_succ] at this ⊢
          rw [this]
          congr 2
          omega

theorem nodeAt_cons_succ (n : Node) (rest : List Node) (k : Nat) (q : Path) :
    nodeAt (n :: rest) ((k + 1) :: q) = nodeAt rest (k :: q) := by
  cases q <;> simp [nodeAt]

theorem resolveAssets_scriptCount (B : Browser) (base url : String) :
    ∀ (nodes out : List Node), resolveAssets B base url nodes = .ok out →
      scriptCount out = scriptCount nodes
  | [], out, h => by
    simp only [resolveAssets, resolveNode, Except.ok.injEq] at h
    subst h; rfl
  | .text d :: rest, out, h => by
    cases hr : resolveAssets B base url rest with
    | error e => simp [resolveAssets, resolveNode, hr] at h
    | ok rest1 =>
      simp only [resolveAssets, resolveNode, hr, Except.ok.injEq] at h
      subst h
      simp [scriptCount, resolveAssets_scriptCount B base url rest rest1 hr]
  | .comment d :: rest, out, h => by
    cases hr : resolveAssets B base url rest with
    | error e => simp [resolveAssets, resolveNode, hr] at h
    | ok rest1 =>
      simp only [resolveAssets, resolveNode, hr, Except.ok.injEq] at h
      subst h
      simp [scriptCount, resolveAssets_scriptCount B base url rest rest1 hr]
  | .template ta tc :: rest, out, h => by
    cases hr : resolveAssets B base url rest with
    | error e => simp [resolveAssets, resolveNode, hr] at h
    | ok rest1 =>
      simp only [resolveAssets, resolveNode, hr, Except.ok.injEq] at h
      subst h
      simp [scriptCount, resolveAssets_scriptCount B base url rest rest1 hr]
  | .element t a cs :: rest, out, h => by
    cases ha : rewriteElement B base url t a with
    | error e => simp [resolveAssets, resolveNode, ha] at h
    | ok a1 =>
      cases hc : resolveAssets B base url cs with
      | error e => simp [resolveAssets, resolveNode, ha, hc] at h
      | ok cs1 =>
        cases hr : resolveAssets B base url rest with
        | error e => simp [resolveAssets, resolveNode, ha, hc, hr] at h
        | ok rest1 =>
          simp only [resolveAssets, resolveNode, ha, hc, hr, Except.ok.injEq] at h
          subst h
          simp [scriptCount, scriptCountNode,
            resolveAssets_scriptCount B base url rest rest1 hr,
            resolveAssets_scriptCount B base url cs cs1 hc]

theorem resolveAssets_textAt (B : Browser) (base url : String) :
    ∀ (nodes out : List Node), resolveAssets B base url nodes = .ok out →
      ∀ q, textAt out q = textAt nodes q
  | [], out, h, q => by
    simp only [resolveAssets, resolveNode, Except.ok.injEq] at h
    subst h; rfl
  | .text d :: rest, out, h, q => by
    cases hr : resolveAssets B base url rest with
    | error e => simp [resolveAssets, resolveNode, hr] at h
    | ok rest1 =>
      simp only [resolveAssets, resolveNode, hr, Except.ok.injEq] at h
      subst h
      match q with
      | [] => simp [textAt]
      | [0] => simp [textAt]
      | 0 :: j :: r => simp [textAt]
      | (k + 1) :: r =>
        rw [textAt_cons_succ, textAt_cons_succ]
        exact resolveAssets_textAt B base url rest rest1 hr _
  | .comment d :: rest, out, h, q => by
    cases hr : resolveAssets B base url rest with
    | error e => simp [resolveAssets, resolveNode, hr] at h
    | ok rest1 =>
      simp only [resolveAssets, resolveNode, hr, Except.ok.injEq] at h
      subst h
      match q with
      | [] => simp [textAt]
      | [0] => simp [textAt]
      | 0 :: j :: r => simp [textAt]
      | (k + 1) :: r =>
        rw [textAt_cons_succ, textAt_cons_succ]
        exact resolveAssets_textAt B base url rest rest1 hr _
  | .template ta tc :: rest, out, h, q => by
    cases hr : resolveAssets B base url rest with
    | error e => simp [resolveAssets, resolveNode, hr] at h
    | ok rest1 =>
      simp only [resolveAssets, resolveNode, hr, Except.ok.injEq] at h
      subst h
      match q with
      | [] => simp [textAt]
      | [0] => simp [textAt]
      | 0 :: j :: r => simp [textAt]
      | (k + 1) :: r =>
        rw [textAt_cons_succ, textAt_cons_succ]
        exact resolveAssets_textAt B base url rest rest1 hr _
  | .element t a cs :: rest, out, h, q => by
    cases ha : rewriteElement B base url t a with
    | error e => simp [resolveAssets, resolveNode, ha] at h
    | ok a1 =>
      cases hc : resolveAssets B base url cs with
      | error e => simp [resolveAssets, resolveNode, ha, hc] at h
      | ok cs1 =>
        cases hr : resolveAssets B base url rest with
        | error e => simp [resolveAssets, resolveNode, ha, hc, hr] at h
        | ok rest1 =>
          simp only [resolveAssets, resolveNode, ha, hc, hr, Except.ok.injEq] at h
          subst h
          match q with
          | [] => simp [textAt]
          | [0] => simp [textAt]
          | 0 :: j :: r =>
            simpa [textAt] using resolveAssets_textAt B base url cs cs1 hc (j :: r)
          | (k + 1) :: r =>
            rw [textAt_cons_succ, textAt_cons_succ]
            exact resolveAssets_textAt B base url rest rest1 hr _

/-- After the asset step an element is where it was, with the attributes the callback of
line 103 leaves it. -/
theorem resolveAssets_nodeAt (B : Browser) (base url : String) :
    ∀ (nodes out : List Node), resolveAssets B base url nodes = .ok out →
      ∀ q tag attrs cs, nodeAt nodes q = some (.element tag attrs cs) →
        ∃ attrs1 cs1, nodeAt out q = some (.element tag attrs1 cs1) ∧
          rewriteElement B base url tag attrs = .ok attrs1
  | [], out, h, q, tag, attrs, cs0, hn => by
    cases q with
    | nil => simp [nodeAt] at hn
    | cons i r => cases r <;> simp [nodeAt] at hn
  | .text d :: rest, out, h, q, tag, attrs, cs0, hn => by
    cases hr : resolveAssets B base url rest with
    | error e => simp [resolveAssets, resolveNode, hr] at h
    | ok rest1 =>
      simp only [resolveAssets, resolveNode, hr, Except.ok.injEq] at h
      subst h
      match q with
      | [] => simp [nodeAt] at hn
      | [0] => simp [nodeAt] at hn
      | 0 :: j :: r => simp [nodeAt] at hn
      | (k + 1) :: r =>
        rw [nodeAt_cons_succ] at hn ⊢
        exact resolveAssets_nodeAt B base url rest rest1 hr _ _ _ _ hn
  | .comment d :: rest, out, h, q, tag, attrs, cs0, hn => by
    cases hr : resolveAssets B base url rest with
    | error e => simp [resolveAssets, resolveNode, hr] at h
    | ok rest1 =>
      simp only [resolveAssets, resolveNode, hr, Except.ok.injEq] at h
      subst h
      match q with
      | [] => simp [nodeAt] at hn
      | [0] => simp [nodeAt] at hn
      | 0 :: j :: r => simp [nodeAt] at hn
      | (k + 1) :: r =>
        rw [nodeAt_cons_succ] at hn ⊢
        exact resolveAssets_nodeAt B base url rest rest1 hr _ _ _ _ hn
  | .template ta tc :: rest, out, h, q, tag, attrs, cs0, hn => by
    cases hr : resolveAssets B base url rest with
    | error e => simp [resolveAssets, resolveNode, hr] at h
    | ok rest1 =>
      simp only [resolveAssets, resolveNode, hr, Except.ok.injEq] at h
      subst h
      match q with
      | [] => simp [nodeAt] at hn
      | [0] => simp [nodeAt] at hn
      | 0 :: j :: r => simp [nodeAt] at hn
      | (k + 1) :: r =>
        rw [nodeAt_cons_succ] at hn ⊢
        exact resolveAssets_nodeAt B base url rest rest1 hr _ _ _ _ hn
  | .element t a cs :: rest, out, h, q, tag, attrs, cs0, hn => by
    cases ha : rewriteElement B base url t a with
    | error e => simp [resolveAssets, resolveNode, ha] at h
    | ok a1 =>
      cases hc : resolveAssets B base url cs with
      | error e => simp [resolveAssets, resolveNode, ha, hc] at h
      | ok cs1 =>
        cases hr : resolveAssets B base url rest with
        | error e => simp [resolveAssets, resolveNode, ha, hc, hr] at h
        | ok rest1 =>
          simp only [resolveAssets, resolveNode, ha, hc, hr, Except.ok.injEq] at h
          subst h
          match q with
          | [] => simp [nodeAt] at hn
          | [0] =>
            simp only [nodeAt, List.getElem?_cons_zero, Option.some.injEq,
              Node.element.injEq] at hn
            obtain ⟨h1, h2, h3⟩ := hn
            subst h1 h2 h3
            exact ⟨a1, cs1, by simp [nodeAt], ha⟩
          | 0 :: j :: r =>
            simp only [nodeAt, List.getElem?_cons_zero] at hn ⊢
            exact resolveAssets_nodeAt B base url cs cs1 hc _ _ _ _ hn
          | (k + 1) :: r =>
            rw [nodeAt_cons_succ] at hn ⊢
            exact resolveAssets_nodeAt B base url rest rest1 hr _ _ _ _ hn

theorem set_same : ∀ (b : List Node) (i : Nat) (n : Node), b[i]? = some n → b.set i n = b := by
  intro b
  induction b with
  | nil => intro i n h; simp at h
  | cons a rest ih =>
    intro i n h
    cases i with
    | zero => simp at h; simp [h]
    | succ k => simp at h; simp [ih k n h]

theorem setText_cons (b : List Node) (i : Nat) (ps : Path) (v : String) :
    setText b (i :: ps) v =
      match b[i]? with
      | some n => b.set i (setNode n ps v)
      | none => b := by
  cases hb : b[i]? with
  | none => cases ps <;> simp [setText, hb]
  | some n =>
    cases ps with
    | nil => cases n <;> simp [setText, setNode, hb, set_same b i _ hb]
    | cons j r => cases n <;> simp [setText, setNode, hb, set_same b i _ hb]

theorem setText_comm : ∀ (p q : Path) (b : List Node) (v w : String), p ≠ q →
    setText (setText b p v) q w = setText (setText b q w) p v := by
  intro p
  induction p with
  | nil => intro q b v w _; simp [setText]
  | cons i ps ih =>
    intro q b v w hpq
    cases q with
    | nil => simp [setText]
    | cons j qs =>
      by_cases hij : i = j
      · subst hij
        have hne : ps ≠ qs := fun h => hpq (by rw [h])
        cases hb : b[i]? with
        | none => simp [setText_cons, hb]
        | some n =>
          have hi : i < b.length := by
            rcases List.getElem?_eq_some_iff.1 hb with ⟨h, _⟩; exact h
          simp only [setText_cons, hb, List.getElem?_set, hi, if_true, List.set_set]
          congr 1
          cases n with
          | text d =>
            cases ps <;> cases qs <;> simp [setNode] at hne ⊢
          | comment d =>
            cases ps <;> cases qs <;> simp [setNode]
          | template ta tc =>
            cases ps <;> cases qs <;> simp [setNode]
          | element t a cs =>
            cases ps with
            | nil => cases qs <;> simp [setNode] at hne ⊢
            | cons i2 ps2 =>
              cases qs with
              | nil => simp [setNode]
              | cons j2 qs2 =>
                simp only [setNode, Node.element.injEq, true_and]
                exact ih (j2 :: qs2) cs v w hne
      · have hji : j ≠ i := fun h => hij h.symm
        cases hbi : b[i]? with
        | none =>
          cases hbj : b[j]? with
          | none => simp [setText_cons, hbi, hbj]
          | some m => simp [setText_cons, hbi, hbj, List.getElem?_set, hji]
        | some n =>
          cases hbj : b[j]? with
          | none => simp [setText_cons, hbi, hbj, List.getElem?_set, hij]
          | some m =>
            simp only [setText_cons, hbi, hbj, List.getElem?_set, hij, hji, if_false]
            exact List.set_comm _ _ _ hij

theorem nodeAt_setText_ne : ∀ (p q : Path) (b : List Node) (v : String), q ≠ p →
    (nodeAt (setText b p v) q).map Node.own = (nodeAt b q).map Node.own := by
  intro p
  induction p with
  | nil => intro q b v _; simp [setText]
  | cons i ps ih =>
    intro q b v hq
    rw [setText_cons]
    cases hb : b[i]? with
    | none => rfl
    | some n =>
      have hi : i < b.length := by
        rcases List.getElem?_eq_some_iff.1 hb with ⟨h, _⟩; exact h
      simp only
      match q with
      | [] => simp [nodeAt]
      | [j] =>
        by_cases hji : i = j
        · subst hji
          have hps : ps ≠ [] := fun h => hq (by rw [h])
          simp only [nodeAt, List.getElem?_set, hi, if_true, hb, Option.map_some']
          cases n <;> cases ps <;> simp [setNode, Node.own] at hps ⊢
        · simp [nodeAt, List.getElem?_set, hji]
      | j :: j2 :: r =>
        by_cases hji : i = j
        · subst hji
          simp only [nodeAt, List.getElem?_set, hi, if_true, hb]
          cases n with
          | text d => cases ps <;> simp [setNode]
          | comment d => cases ps <;> simp [setNode]
          | template ta tc => cases ps <;> simp [setNode]
          | element t a cs =>
            cases ps with
            | nil => simp [setNode]
            | cons i2 ps2 =>
              simp only [setNode]
              exact ih (j2 :: r) cs v (fun h => hq (by rw [h]))
        · simp [nodeAt, List.getElem?_set, hji]

theorem translateStep_eq (B : Browser) (lang : String) (b : List Node) (p : Path) :
    translateStep B lang b p =
      match stepText B lang (textAt b p) with
      | some t => setText b p t
      | none => b := by
  unfold translateStep stepText
  simp only [translateLoop]
  split
  · cases hr : translateResult B 0 (jsTrim ((textAt b p).getD "")) lang with
    | ok t => simp [translateText, hr]
    | error e => simp [translateText, hr]
  · rfl

theorem translateStep_textAt (B : Browser) (lang : String) (b : List Node) (p q : Path)
    (h : q ≠ p) : textAt (translateStep B lang b p) q = textAt b q := by
  rw [translateStep_eq]
  cases stepText B lang (textAt b p) with
  | none => rfl
  | some t => exact textAt_setText_ne p q b t h

theorem translateStep_comm (B : Browser) (lang : String) (z : List Node) (x y : Path) :
    translateStep B lang (translateStep B lang z x) y =
      translateStep B lang (translateStep B lang z y) x := by
  by_cases hxy : x = y
  · rw [hxy]
  · have hyx : y ≠ x := fun h => hxy h.symm
    rw [translateStep_eq B lang (translateStep B lang z x) y,
      translateStep_eq B lang (translateStep B lang z y) x,
      translateStep_textAt B lang z x y hyx, translateStep_textAt B lang z y x hxy,
      translateStep_eq B lang z x, translateStep_eq B lang z y]
    cases stepText B lang (textAt z x) with
    | none => cases stepText B lang (textAt z y) <;> rfl
    | some t =>
      cases stepText B lang (textAt z y) with
      | none => rfl
      | some u => exact setText_comm x y z t u hxy

theorem translateResult_steady (B : Browser) (h : ∀ i j u, B.fetch i u = B.fetch j u)
    (k : Nat) (text lang : String) :
    translateResult B k text lang = translateResult B 0 text lang := by
  unfold translateResult
  rw [h k 0]

theorem translateLoop_foldl (B : Browser) (lang : String)
    (h : ∀ i j u, B.fetch i u = B.fetch j u) : ∀ (ps : List Path) (k : Nat) (b : List Node),
    (translateLoop B lang ps k b).2 = ps.foldl (translateStep B lang) b := by
  intro ps
  induction ps with
  | nil => intro k b; rfl
  | cons p rest ih =>
    intro k b
    rw [List.foldl_cons, translateStep_eq]
    unfold stepText
    simp only [translateLoop]
    split
    · rw [← translateResult_steady B h k]
      cases hr : translateResult B k (jsTrim ((textAt b p).getD "")) lang with
      | ok t => simp [translateText, hr, ih]
      | error e => simp [translateText, hr, ih]
    · exact ih k b

theorem removeScripts_scriptCount : ∀ (nodes : List Node), scriptCount (removeScripts nodes) = 0
  | [] => by simp [removeScripts, scriptCount]
  | .text d :: rest => by
    simp [removeScripts, removeScriptsIn, isScript, scriptCount, scriptCountNode, removeScripts_scriptCount rest]
  | .comment d :: rest => by
    simp [removeScripts, removeScriptsIn, isScript, scriptCount, scriptCountNode, removeScripts_scriptCount rest]
  | .template ta tc :: rest => by
    simp [removeScripts, removeScriptsIn, isScript, scriptCount, scriptCountNode, removeScripts_scriptCount rest]
  | .element t a cs :: rest => by
    by_cases h : t = "script"
    · simp [removeScripts, removeScriptsIn, isScript, h, removeScripts_scriptCount rest]
    · simp [removeScripts, removeScriptsIn, isScript, h, scriptCount, scriptCountNode, removeScripts_scriptCount rest,
        removeScripts_scriptCount cs]

theorem foldl_silent (es : List Event) (h : ∀ e ∈ es, ∀ s, applyEvent s e = s) (s : State) :
    es.foldl applyEvent s = s := by
  induction es with
  | nil => rfl
  | cons e rest ih =>
    rw [List.foldl_cons, h e (List.mem_cons_self _ _) s]
    exact ih fun e he => h e (List.mem_cons_of_mem _ he)

theorem translateLoop_silent (B : Browser) (lang : String) : ∀ (ps : List Path) (k : Nat)
    (body : List Node), ∀ e ∈ (translateLoop B lang ps k body).1, ∀ s, applyEvent s e = s := by
  intro ps
  induction ps with
  | nil => intro k body e he; simp [translateLoop] at he
  | cons p rest ih =>
    intro k body e he s
    simp only [translateLoop] at he
    split at he
    · cases hr : translateResult B k (jsTrim ((textAt body p).getD "")) lang with
      | ok t =>
        simp only [translateText, hr, List.singleton_append, List.mem_cons] at he
        rcases he with he | he
        · subst he; rfl
        · exact ih _ _ e he s
      | error m =>
        simp only [translateText, hr, List.cons_append, List.nil_append, List.mem_cons] at he
        rcases he with he | he | he | he
        · subst he; rfl
        · subst he; rfl
        · subst he; rfl
        · exact ih _ _ e he s
    · exact ih _ _ e he s

theorem pipeline_silent (B : Browser) (url lang : String) :
    ∀ e ∈ (pipeline B url lang).1, ∀ s, applyEvent s e = s := by
  intro e he s
  unfold pipeline at he
  cases hf : B.fetch 0 (proxyUrl B url) with
  | error m => simp [hf] at he; subst he; rfl
  | ok r =>
    cases ht : r.text with
    | error m => simp [hf, ht] at he; subst he; rfl
    | ok html =>
      cases hp : B.parseFromString html with
      | error m =>
        simp [hf, ht, hp] at he
        rcases he with he | he <;> (subst he; rfl)
      | ok parsed =>
        simp only [hf, ht, hp, processDocument, List.mem_cons] at he
        rcases he with he | he | he
        · subst he; rfl
        · subst he; rfl
        · exact translateLoop_silent B lang _ _ _ e he s

/-- The state after a run, case by case. -/
theorem finalState_eq (B : Browser) (s : State) :
    finalState B s =
      if s.url = "" then
        { s with toastMessage := "Please enter a valid URL", showToast := true }
      else
        match (pipeline B s.url s.selectedLanguage).2 with
        | .ok doc =>
          { s with loading := false, translatedContent := B.innerHTML doc.body,
                   toastMessage := "Translation completed successfully!", showToast := true }
        | .error e =>
          { s with loading := false, translatedContent := "",
                   toastMessage := "Error: " ++ e, showToast := true } := by
  unfold finalState translateWebsite
  by_cases h : s.url = ""
  · simp [h, applyEvent]
  · simp only [h, if_false, List.foldl_append, List.foldl_cons, List.foldl_nil]
    rw [foldl_silent _ (pipeline_silent B s.url s.selectedLanguage)]
    cases (pipeline B s.url s.selectedLanguage).2 <;> simp [applyEvent]

theorem pipeline_parsed (B : Browser) (url lang html : String) (r : Response)
    (parsed : Document) (hf : B.fetch 0 (proxyUrl B url) = .ok r) (ht : r.text = .ok html)
    (hp : B.parseFromString html = .ok parsed) :
    pipeline B url lang =
      (.fetch (proxyUrl B url) :: .parse html :: (processDocument B url lang parsed).1,
        (processDocument B url lang parsed).2) := by
  simp [pipeline, hf, ht, hp]

theorem pipeline_scriptCount (B : Browser) (url lang : String) (doc : Document)
    (h : (pipeline B url lang).2 = .ok doc) :
    scriptCount doc.head = 0 ∧ scriptCount doc.body = 0 := by
  unfold pipeline at h
  cases hf : B.fetch 0 (proxyUrl B url) with
  | error m => simp [hf] at h
  | ok r =>
    cases ht : r.text with
    | error m => simp [hf, ht] at h
    | ok html =>
      cases hp : B.parseFromString html with
      | error m => simp [hf, ht, hp] at h
      | ok parsed =>
        simp only [hf, ht, hp, processDocument, resolveDocument, removeScriptElements] at h
        cases h1 : resolveAssets B parsed.baseURI url (removeScripts parsed.head) with
        | error m => simp [h1] at h
        | ok head1 =>
          cases h2 : resolveAssets B parsed.baseURI url
              (translateLoop B lang (textNodes (removeScripts parsed.body)) 1
                (removeScripts parsed.body)).2 with
          | error m => simp [h1, h2] at h
          | ok body1 =>
            simp only [h1, h2, Except.ok.injEq] at h
            subst h
            refine ⟨?_, ?_⟩
            · rw [resolveAssets_scriptCount B _ _ _ _ h1, removeScripts_scriptCount]
            · rw [resolveAssets_scriptCount B _ _ _ _ h2, translateLoop_scriptCount,
                removeScripts_scriptCount]

/-- Every text node of the siblings is listed. -/
theorem textsForest_complete : ∀ (nodes : List Node) (parent : Path) (i k : Nat) (q : Path)
    (d : String), textAt nodes (k :: q) = some d →
      (parent ++ (i + k) :: q, d) ∈ textsForest parent i nodes
  | [], parent, i, k, q, d, h => by cases q <;> simp [textAt] at h
  | .text d0 :: rest, parent, i, k, q, d, h => by
    rw [textsForest_text]
    cases k with
    | zero =>
      cases q with
      | nil => simp [textAt] at h; simp [h]
      | cons j r => simp [textAt] at h
    | succ k =>
      rw [textAt_cons_succ] at h
      have := textsForest_complete rest parent (i + 1) k q d h
      rw [show i + (k + 1) = i + 1 + k by omega]
      exact List.mem_cons_of_mem _ this
  | .comment d0 :: rest, parent, i, k, q, d, h => by
    rw [textsForest_comment]
    cases k with
    | zero => cases q <;> simp [textAt] at h
    | succ k =>
      rw [textAt_cons_succ] at h
      have := textsForest_complete rest parent (i + 1) k q d h
      rw [show i + (k + 1) = i + 1 + k by omega]
      exact this
  | .template ta tc :: rest, parent, i, k, q, d, h => by
    rw [textsForest_template]
    cases k with
    | zero => cases q <;> simp [textAt] at h
    | succ k =>
      rw [textAt_cons_succ] at h
      have := textsForest_complete rest parent (i + 1) k q d h
      rw [show i + (k + 1) = i + 1 + k by omega]
      exact this
  | .element t a cs :: rest, parent, i, k, q, d, h => by
    rw [textsForest_element]
    cases k with
    | zero =>
      cases q with
      | nil => simp [textAt] at h
      | cons j r =>
        simp only [textAt, List.getElem?_cons_zero] at h
        have := textsForest_complete cs (parent ++ [i]) 0 j r d h
        simp only [Nat.zero_add, List.append_assoc, List.singleton_append] at this
        exact List.mem_append_left _ (by simpa using this)
    | succ k =>
      rw [textAt_cons_succ] at h
      have := textsForest_complete rest parent (i + 1) k q d h
      rw [show i + (k + 1) = i + 1 + k by omega]
      exact List.mem_append_right _ this

/-- The listed text nodes are exactly the text nodes of the body. -/
theorem textsForest_iff (body : List Node) (p : Path) (d : String) :
    (p, d) ∈ textsForest [] 0 body ↔ textAt body p = some d := by
  constructor
  · intro h
    obtain ⟨k, q, hp, ht⟩ := textsForest_mem body [] 0 p d h
    simp only [List.nil_append, Nat.zero_add] at hp
    rw [hp]; exact ht
  · intro h
    cases p with
    | nil => simp [textAt] at h
    | cons k q =>
      have := textsForest_complete body [] 0 k q d h
      simpa using this

theorem joinStrings_empty : ∀ (l : List String), joinStrings "" l = l.foldr (· ++ ·) ""
  | [] => rfl
  | [a] => by simp [joinStrings]
  | a :: b :: rest => by
    have := joinStrings_empty (b :: rest)
    simp only [joinStrings, String.append_empty, this, List.foldr_cons]

theorem mapIndex0_entries : ∀ (entries : List (String × List JsVal)),
    mapIndex0 (entries.map fun e => .arr (.str e.1 :: e.2)) =
      .ok (entries.map fun e => .str e.1)
  | [] => rfl
  | e :: rest => by
    simp [mapIndex0, index0, mapIndex0_entries rest]

theorem joinParts_strings : ∀ (l : List String), joinParts (l.map JsVal.str) = l
  | [] => by simp [joinParts]
  | a :: rest => by simp [joinParts, jsToString, joinParts_strings rest]

theorem parseTranslation_entries (entries : List (String × List JsVal)) (others : List JsVal) :
    parseTranslation (.arr (.arr (entries.map fun e => .arr (.str e.1 :: e.2)) :: others)) =
      .ok ((entries.map Prod.fst).foldr (· ++ ·) "") := by
  have h := joinParts_strings (entries.map Prod.fst)
  simp only [List.map_map] at h
  simp only [parseTranslation, index0, List.head?_cons, Option.getD_some, mapIndex0_entries]
  rw [← joinStrings_empty, ← h]
  rfl

theorem getAttr_setAttr : ∀ (attrs : List (String × String)) (name value : String),
    getAttr (setAttr attrs name value) name = some value
  | [], name, value => by simp [setAttr, getAttr, List.lookup]
  | (n, v) :: rest, name, value => by
    have ih := getAttr_setAttr rest name value
    by_cases h : n = name
    · subst h; simp [setAttr, getAttr, List.lookup]
    · have h2 : (name == n) = false := by
        simp only [beq_eq_false_iff_ne, ne_eq]
        exact fun e => h e.symm
      simp only [getAttr] at ih
      simp [setAttr, getAttr, List.lookup, h, h2, ih]

/-- The asset step fails only with an exception of the `URL` constructor. -/
theorem rewriteAttr_error (B : Browser) (url name : String) (property : Option String)
    (attrs : List (String × String)) (m : String)
    (h : rewriteAttr B url name property attrs = .error m) :
    ∃ input, B.urlHref input url = .error m := by
  unfold rewriteAttr at h
  cases property with
  | none => simp at h
  | some v =>
    by_cases hv : v = ""
    · simp [hv] at h
    · cases hu : B.urlHref v url with
      | error e =>
        simp [hv, hu] at h
        exact ⟨v, by rw [hu, h]⟩
      | ok href => simp [hv, hu] at h

theorem rewriteElement_error (B : Browser) (base url tag : String)
    (attrs : List (String × String)) (m : String)
    (h : rewriteElement B base url tag attrs = .error m) :
    ∃ input, B.urlHref input url = .error m := by
  unfold rewriteElement at h
  by_cases ha : isAsset tag attrs = true
  · simp only [ha, if_true] at h
    cases h1 : rewriteAttr B url "src" (srcProperty B base tag attrs) attrs with
    | error e =>
      simp only [h1, Except.error.injEq] at h
      subst h
      exact rewriteAttr_error B url _ _ _ _ h1
    | ok attrs1 =>
      simp only [h1] at h
      exact rewriteAttr_error B url _ _ _ _ h
  · simp [ha] at h

theorem resolveAssets_error (B : Browser) (base url : String) :
    ∀ (nodes : List Node) (m : String), resolveAssets B base url nodes = .error m →
      ∃ input, B.urlHref input url = .error m
  | [], m, h => by simp [resolveAssets] at h
  | .text d :: rest, m, h => by
    cases hr : resolveAssets B base url rest with
    | error e =>
      simp only [resolveAssets, resolveNode, hr, Except.error.injEq] at h
      subst h
      exact resolveAssets_error B base url rest _ hr
    | ok rest1 => simp [resolveAssets, resolveNode, hr] at h
  | .comment d :: rest, m, h => by
    cases hr : resolveAssets B base url rest with
    | error e =>
      simp only [resolveAssets, resolveNode, hr, Except.error.injEq] at h
      subst h
      exact resolveAssets_error B base url rest _ hr
    | ok rest1 => simp [resolveAssets, resolveNode, hr] at h
  | .template ta tc :: rest, m, h => by
    cases hr : resolveAssets B base url rest with
    | error e =>
      simp only [resolveAssets, resolveNode, hr, Except.error.injEq] at h
      subst h
      exact resolveAssets_error B base url rest _ hr
    | ok rest1 => simp [resolveAssets, resolveNode, hr] at h
  | .element t a cs :: rest, m, h => by
    cases ha : rewriteElement B base url t a with
    | error e =>
      simp only [resolveAssets, resolveNode, ha, Except.error.injEq] at h
      subst h
      exact rewriteElement_error B base url t a _ ha
    | ok a1 =>
      cases hc : resolveAssets B base url cs with
      | error e =>
        simp only [resolveAssets, resolveNode, ha, hc, Except.error.injEq] at h
        subst h
        exact resolveAssets_error B base url cs _ hc
      | ok cs1 =>
        cases hr : resolveAssets B base url rest with
        | error e =>
          simp only [resolveAssets, resolveNode, ha, hc, hr, Except.error.injEq] at h
          subst h
          exact resolveAssets_error B base url rest _ hr
        | ok rest1 => simp [resolveAssets, resolveNode, ha, hc, hr] at h

theorem resolveDocument_error (B : Browser) (url : String) (doc : Document) (m : String)
    (h : resolveDocument B url doc = .error m) : ∃ input, B.urlHref input url = .error m := by
  unfold resolveDocument at h
  cases h1 : resolveAssets B doc.baseURI url doc.head with
  | error e =>
    simp only [h1, Except.error.injEq] at h
    subst h
    exact resolveAssets_error B _ url _ _ h1
  | ok head1 =>
    cases h2 : resolveAssets B doc.baseURI url doc.body with
    | error e =>
      simp only [h1, h2, Except.error.injEq] at h
      subst h
      exact resolveAssets_error B _ url _ _ h2
    | ok body1 => simp [h1, h2] at h

theorem resolveDocument_ok (B : Browser) (url : String) (doc final : Document)
    (h : resolveDocument B url doc = .ok final) :
    resolveAssets B doc.baseURI url doc.body = .ok final.body := by
  unfold resolveDocument at h
  cases h1 : resolveAssets B doc.baseURI url doc.head with
  | error e => simp [h1] at h
  | ok head1 =>
    cases h2 : resolveAssets B doc.baseURI url doc.body with
    | error e => simp [h1, h2] at h
    | ok body1 =>
      simp only [h1, h2, Except.ok.injEq] at h
      subst h
      rfl

theorem mapIndex0_arrays : ∀ (entries : List (List JsVal)),
    mapIndex0 (entries.map JsVal.arr) =
      .ok (entries.map fun e => e.head?.getD .undefined)
  | [] => rfl
  | e :: rest => by
    simp [mapIndex0, index0, mapIndex0_arrays rest]

/-- The text picked from a response whose entries are arrays of any content: the `join` of
the first elements, an empty entry or a `null` first element counting for nothing. -/
theorem parseTranslation_arrays (entries : List (List JsVal)) (others : List JsVal) :
    parseTranslation (.arr (.arr (entries.map JsVal.arr) :: others)) =
      .ok (joinStrings "" (joinParts (entries.map fun e => e.head?.getD .undefined))) := by
  simp only [parseTranslation, index0, List.head?_cons, Option.getD_some, mapIndex0_arrays]

/-- An entry that is `null` makes `translateText` throw. -/
theorem parseTranslation_null_entry :
    parseTranslation (.arr [.arr [.null]]) =
      .error "Cannot read properties of null (reading 0)" := by
  rfl

/-- The events of a run, by its outcome. -/
theorem translateWebsite_outcome (B : Browser) (s : State) :
    translateWebsite B s =
      match outcome B s with
      | .rejected => [.displayToast "Please enter a valid URL"]
      | .done doc =>
        [.setLoading true, .setTranslatedContent ""] ++
          (pipeline B s.url s.selectedLanguage).1 ++
          [.setTranslatedContent (B.innerHTML doc.body),
            .displayToast "Translation completed successfully!", .setLoading false]
      | .failed m =>
        [.setLoading true, .setTranslatedContent ""] ++
          (pipeline B s.url s.selectedLanguage).1 ++
          [.displayToast ("Error: " ++ m), .setLoading false] := by
  unfold translateWebsite outcome
  by_cases h : s.url = ""
  · simp [h]
  · simp only [h, if_false]
    cases (pipeline B s.url s.selectedLanguage).2 <;> simp

/-- With the URL-reflecting property of the HTML standard, line 105 reads a relative `src`
already resolved against the base URL of the parsed document, here the address of the
application, and the page URL plays no part. -/
theorem relative_src_example :
    ((resolveDocument (demoBrowser 200 relativeImagePage) "https://example.com/page"
        relativeImagePage).toOption.bind fun d => attrAt d.body [0] "src") =
      some "http://localhost:3000/a.png" := by
  decide

/-- What line 73 does achieve: no script element is left among the descendants of head and
body, where `querySelectorAll` looks, and none comes back by the translation and asset
steps; the content of templates is not covered. -/
theorem reachable_scripts_removed (B : Browser) (s : State) (parsed : Document) :
    (scriptCount (removeScriptElements parsed).head = 0 ∧
      scriptCount (removeScriptElements parsed).body = 0) ∧
      match outcome B s with
      | .done doc =>
        scriptCount doc.body = 0 ∧ (finalState B s).translatedContent = B.innerHTML doc.body
      | .failed _ => (finalState B s).translatedContent = ""
      | .rejected => (finalState B s).translatedContent = s.translatedContent := by
  refine ⟨⟨removeScripts_scriptCount _, removeScripts_scriptCount _⟩, ?_⟩
  rw [finalState_eq]
  unfold outcome
  by_cases h : s.url = ""
  · simp [h]
  · simp only [h, if_false]
    cases hp : (pipeline B s.url s.selectedLanguage).2 with
    | error m => simp
    | ok doc => exact ⟨(pipeline_scriptCount B _ _ doc hp).2, rfl⟩

/-- C1 (failing input): on the page `<p>Hello</p><template><p>in</p><script>z()</script>
</template>` the script element of the template is not found by `querySelectorAll('script')`
at line 73 and is serialised by `innerHTML` at line 112: the extracted tree still holds it
and it is in the markup handed to `setTranslatedContent`. -/
theorem script_in_template_survives :
    markupScriptCount templatePage.body = 1 ∧
      markupScriptCount (removeScriptElements templatePage).body = 1 ∧
      ((pipeline (demoBrowser 200 templatePage) "https://example.com/page" "es").2.toOption.map
        fun doc => markupScriptCount doc.body) = some 1 ∧
      translateWebsite (demoBrowser 200 templatePage) (demoState "https://example.com/page") =
        [.setLoading true, .setTranslatedContent "",
          .fetch "https://api.allorigins.win/raw?url=https%3A%2F%2Fexample.com%2Fpage",
          .parse "<html>",
          .fetch "https://translate.googleapis.com/translate_a/single?client=gtx&sl=auto&tl=es&dt=t&q=Hello",
          .setTranslatedContent
            "<p>Hola</p><template><p>in</p><script>z()</script></template>",
          .displayToast "Translation completed successfully!", .setLoading false] := by
  decide

/-- A second way for a script element into the markup: the text of a raw text element such
as `style` is serialised as it is, so a translation that holds markup is not escaped. The
tree has no script element and the markup has one. -/
theorem translation_into_style_example :
    ((pipeline markupBrowser "https://example.com/page" "es").2.toOption.map
        fun doc => markupScriptCount doc.body) = some 0 ∧
      translateWebsite markupBrowser (demoState "https://example.com/page") =
        [.setLoading true, .setTranslatedContent "",
          .fetch "https://api.allorigins.win/raw?url=https%3A%2F%2Fexample.com%2Fpage",
          .parse "<html>",
          .fetch "https://translate.googleapis.com/translate_a/single?client=gtx&sl=auto&tl=es&dt=t&q=p%20%7B%20color%3A%20red%20%7D",
          .setTranslatedContent "<style></style><script>evil()</script></style>",
          .displayToast "Translation completed successfully!", .setLoading false] := by
  decide

/-- C2: The array `textNodes` built by the TreeWalker loop is the list of the text nodes of
the body in document (pre-order) order, kept when their trimmed content is not empty; the
listed text nodes are exactly the text nodes of the body, each once. -/
theorem textNodes_preorder (body : List Node) :
    textNodes body = ((textsForest [] 0 body).filter fun u => hasText u.2).map Prod.fst ∧
      (∀ p d, (p, d) ∈ textsForest [] 0 body ↔ textAt body p = some d) ∧
      ((textsForest [] 0 body).map Prod.fst).Nodup :=
  ⟨textNodes_eq body, textsForest_iff body, textsForest_nodup body [] 0⟩

/-- C4: When the response is an array whose first element is an array of entries, each an
array that starts with a string, `translateText` returns the concatenation of these first
strings in order; the other elements of the response and of each entry play no part. -/
theorem translateText_concat (B : Browser) (k : Nat) (text lang : String) (r : Response)
    (entries : List (String × List JsVal)) (others : List JsVal)
    (hf : B.fetch k (translateUrl B text lang) = .ok r)
    (hj : r.json = .ok (.arr (.arr (entries.map fun e => .arr (.str e.1 :: e.2)) :: others))) :
    (translateText B k text lang).2 = .ok ((entries.map Prod.fst).foldr (· ++ ·) "") := by
  have h : translateResult B k text lang = .ok ((entries.map Prod.fst).foldr (· ++ ·) "") := by
    simp only [translateResult, hf, hj]
    exact parseTranslation_entries entries others
  simp [translateText, h]

theorem translateText_concat_witness :
    (demoBrowser 200 demoDocument).fetch 1 (translateUrl (demoBrowser 200 demoDocument) "Hello" "es") =
        .ok ⟨200, .ok "", .ok (demoJson "Hola" "Hello")⟩ ∧
      (translateText (demoBrowser 200 demoDocument) 1 "Hello" "es").2 = .ok "Hola" :=
  ⟨rfl, translateText_concat (demoBrowser 200 demoDocument) 1 "Hello" "es"
    ⟨200, .ok "", .ok (demoJson "Hola" "Hello")⟩
    [("Hola", [.str "Hello", .null, .null, .num "10"])] [.null, .str "en"] rfl rfl⟩

/-- C5 (counterexample): the proxy answers with status 500 and the run still parses the
body, translates and ends with the success toast. -/
theorem status_500_completes :
    ((demoBrowser 500 demoDocument).fetch 0
        (proxyUrl (demoBrowser 500 demoDocument) "https://example.com/page")).toOption.map
        (fun r => r.status) = some 500 ∧
      translateWebsite (demoBrowser 500 demoDocument) (demoState "https://example.com/page") =
        [.setLoading true, .setTranslatedContent "",
          .fetch "https://api.allorigins.win/raw?url=https%3A%2F%2Fexample.com%2Fpage",
          .parse "<html>",
          .fetch "https://translate.googleapis.com/translate_a/single?client=gtx&sl=auto&tl=es&dt=t&q=Hello",
          .fetch "https://translate.googleapis.com/translate_a/single?client=gtx&sl=auto&tl=es&dt=t&q=two",
          .consoleError "Failed to fetch", .consoleError "Failed to fetch",
          .fetch "https://translate.googleapis.com/translate_a/single?client=gtx&sl=auto&tl=es&dt=t&q=three",
          .setTranslatedContent
            "<p>Hola</p><img src=\"https://example.com/a.png\">\n  <a href=\"/x\">two</a><p>tres</p>",
          .displayToast "Translation completed successfully!", .setLoading false] := by
  decide

/-- C5 (amended): when the proxy call itself fails, that is `fetch` rejects with message
`m`, the run fails: nothing is parsed, no translation call is made, no translated content
is produced and the error toast carries `m`. -/
theorem fetch_rejection_fails (B : Browser) (s : State) (m : String) (hurl : s.url ≠ "")
    (hf : B.fetch 0 (proxyUrl B s.url) = .error m) :
    translateWebsite B s =
        [.setLoading true, .setTranslatedContent "", .fetch (proxyUrl B s.url),
          .displayToast ("Error: " ++ m), .setLoading false] ∧
      outcome B s = .failed m := by
  simp [translateWebsite, outcome, pipeline, hurl, hf]

theorem fetch_rejection_fails_witness :
    (demoState "https://example.com/page").url ≠ "" ∧
      offlineBrowser.fetch 0 (proxyUrl offlineBrowser (demoState "https://example.com/page").url) =
        .error "Failed to fetch" ∧
      translateWebsite offlineBrowser (demoState "https://example.com/page") =
        [.setLoading true, .setTranslatedContent "",
          .fetch (proxyUrl offlineBrowser (demoState "https://example.com/page").url),
          .displayToast ("Error: " ++ "Failed to fetch"), .setLoading false] ∧
      outcome offlineBrowser (demoState "https://example.com/page") = .failed "Failed to fetch" :=
  ⟨by decide, rfl,
    fetch_rejection_fails offlineBrowser (demoState "https://example.com/page") "Failed to fetch"
      (by decide) rfl⟩

/-- C6 (counterexample): a url that is not empty and not a URL passes the guard: loading is
set, the content is cleared and the proxy is called. -/
theorem malformed_url_starts :
    translateWebsite (demoBrowser 200 demoDocument) (demoState "not a url") =
      [.setLoading true, .setTranslatedContent "",
        .fetch "https://api.allorigins.win/raw?url=not%20a%20url",
        .parse "<html>",
        .fetch "https://translate.googleapis.com/translate_a/single?client=gtx&sl=auto&tl=es&dt=t&q=Hello",
        .fetch "https://translate.googleapis.com/translate_a/single?client=gtx&sl=auto&tl=es&dt=t&q=two",
        .consoleError "Failed to fetch", .consoleError "Failed to fetch",
        .fetch "https://translate.googleapis.com/translate_a/single?client=gtx&sl=auto&tl=es&dt=t&q=three",
        .displayToast "Error: Invalid base URL", .setLoading false] := by
  decide

/-- C6 (amended): with an empty url the run ends at the guard: its only effect is the toast
`Please enter a valid URL`; no request is made, loading is not set and the translated
content is not cleared. -/
theorem empty_url_rejected (B : Browser) (s : State) (hurl : s.url = "") :
    translateWebsite B s = [.displayToast "Please enter a valid URL"] ∧
      outcome B s = .rejected ∧
      requests (translateWebsite B s) = [] ∧
      (finalState B s).loading = s.loading ∧
      (finalState B s).translatedContent = s.translatedContent := by
  simp [translateWebsite, outcome, finalState, hurl, requests, applyEvent]

theorem empty_url_rejected_witness :
    (demoState "").url = "" ∧
      translateWebsite (demoBrowser 200 demoDocument) (demoState "") =
        [.displayToast "Please enter a valid URL"] ∧
      outcome (demoBrowser 200 demoDocument) (demoState "") = .rejected ∧
      requests (translateWebsite (demoBrowser 200 demoDocument) (demoState "")) = [] ∧
      (finalState (demoBrowser 200 demoDocument) (demoState "")).loading = (demoState "").loading ∧
      (finalState (demoBrowser 200 demoDocument) (demoState "")).translatedContent =
        (demoState "").translatedContent :=
  ⟨rfl, empty_url_rejected (demoBrowser 200 demoDocument) (demoState "") rfl⟩

/-- C9: With a url that is not empty, when the proxy fetch, the reading of the response
body or the parsing throws an error of message `m`, the run fails without output: the
translated content ends empty whatever it was, the toast says `Error: ` followed by `m`,
and the proxy request is the only request made. -/
theorem fetch_or_parse_error_aborts (B : Browser) (s : State) (m : String) (hurl : s.url ≠ "")
    (h : B.fetch 0 (proxyUrl B s.url) = .error m ∨
      (∃ r, B.fetch 0 (proxyUrl B s.url) = .ok r ∧ r.text = .error m) ∨
      (∃ r html, B.fetch 0 (proxyUrl B s.url) = .ok r ∧ r.text = .ok html ∧
        B.parseFromString html = .error m)) :
    outcome B s = .failed m ∧
      (finalState B s).translatedContent = "" ∧
      (finalState B s).toastMessage = "Error: " ++ m ∧
      (finalState B s).loading = false ∧
      requests (translateWebsite B s) = [proxyUrl B s.url] := by
  rw [finalState_eq]
  rcases h with h | ⟨r, h, ht⟩ | ⟨r, html, h, ht, hp⟩
  · simp [translateWebsite, outcome, pipeline, hurl, h, requests]
  · simp [translateWebsite, outcome, pipeline, hurl, h, ht, requests]
  · simp [translateWebsite, outcome, pipeline, hurl, h, ht, hp, requests]

theorem fetch_or_parse_error_aborts_witness :
    (demoState "https://example.com/page").url ≠ "" ∧
      offlineBrowser.fetch 0 (proxyUrl offlineBrowser (demoState "https://example.com/page").url) =
        .error "Failed to fetch" ∧
      outcome offlineBrowser (demoState "https://example.com/page") = .failed "Failed to fetch" ∧
      (finalState offlineBrowser (demoState "https://example.com/page")).translatedContent = "" ∧
      (finalState offlineBrowser (demoState "https://example.com/page")).toastMessage =
        "Error: " ++ "Failed to fetch" ∧
      (finalState offlineBrowser (demoState "https://example.com/page")).loading = false ∧
      requests (translateWebsite offlineBrowser (demoState "https://example.com/page")) =
        [proxyUrl offlineBrowser (demoState "https://example.com/page").url] :=
  ⟨by decide, rfl,
    fetch_or_parse_error_aborts offlineBrowser (demoState "https://example.com/page")
      "Failed to fetch" (by decide) (Or.inl rfl)⟩

theorem processDocument_requests (B : Browser) (url lang : String) (parsed : Document) :
    requests (processDocument B url lang parsed).1 =
      (textNodes (removeScripts parsed.body)).map fun node =>
        translateUrl B (jsTrim ((textAt (removeScripts parsed.body) node).getD "")) lang := by
  obtain ⟨hnd, hall⟩ := textUnits_sound (removeScripts parsed.body)
  obtain ⟨h1, _, _⟩ := translateLoop_spec B lang _ 1 _ hnd hall
  simp only [processDocument, removeScriptElements, textNodes_eq, h1, List.map_map]
  apply List.map_congr_left
  intro u hu
  simp [(hall u hu).1]

theorem textNodes_get (body : List Node) (i : Nat) (h : i < (textNodes body).length) :
    ∃ h2 : i < (textUnits body).length,
      (textNodes body).get ⟨i, h⟩ = ((textUnits body).get ⟨i, h2⟩).1 ∧
        textAt body ((textNodes body).get ⟨i, h⟩) = some ((textUnits body).get ⟨i, h2⟩).2 := by
  have h2 : i < (textUnits body).length := by
    simpa [textNodes_eq] using h
  have e : (textNodes body).get ⟨i, h⟩ = ((textUnits body).get ⟨i, h2⟩).1 := by
    simp [textNodes_eq]
  refine ⟨h2, e, ?_⟩
  rw [e]
  exact ((textUnits_sound body).2 _ (List.get_mem _ _ _)).1

/-- C10: A run that reaches the translation step requests the proxy and then makes exactly
one translation request per collected text node, in document order, each for the trimmed
text the node had at extraction and the selected language, whatever the earlier calls
answered; every collected node has text left after trimming, so the second test of the
loop skips none. -/
theorem one_call_per_unit (B : Browser) (s : State) (r : Response) (html : String)
    (parsed : Document) (hurl : s.url ≠ "") (hf : B.fetch 0 (proxyUrl B s.url) = .ok r)
    (ht : r.text = .ok html) (hp : B.parseFromString html = .ok parsed) :
    requests (translateWebsite B s) =
        proxyUrl B s.url ::
          (textNodes (removeScripts parsed.body)).map (fun node =>
            translateUrl B (jsTrim ((textAt (removeScripts parsed.body) node).getD ""))
              s.selectedLanguage) ∧
      ∀ node ∈ textNodes (removeScripts parsed.body),
        ∃ d, textAt (removeScripts parsed.body) node = some d ∧ 0 < (jsTrim d).length := by
  constructor
  · simp only [translateWebsite, hurl, if_false, requests_append,
      pipeline_parsed B s.url s.selectedLanguage html r parsed hf ht hp, requests,
      processDocument_requests]
    cases (processDocument B s.url s.selectedLanguage parsed).2 <;>
      simp [requests, requests_append, processDocument_requests]
  · intro node hn
    rw [textNodes_eq] at hn
    obtain ⟨u, hu, rfl⟩ := List.mem_map.1 hn
    obtain ⟨a, b⟩ := (textUnits_sound _).2 u hu
    exact ⟨u.2, a, by simpa [hasText] using b⟩

theorem one_call_per_unit_witness :
    (demoState "https://example.com/page").url ≠ "" ∧
      (demoBrowser 200 demoDocument).fetch 0
          (proxyUrl (demoBrowser 200 demoDocument) (demoState "https://example.com/page").url) =
        .ok ⟨200, .ok "<html>", .error "Unexpected token"⟩ ∧
      (demoBrowser 200 demoDocument).parseFromString "<html>" = .ok demoDocument ∧
      requests (translateWebsite (demoBrowser 200 demoDocument)
          (demoState "https://example.com/page")) =
        proxyUrl (demoBrowser 200 demoDocument) (demoState "https://example.com/page").url ::
          (textNodes (removeScripts demoDocument.body)).map (fun node =>
            translateUrl (demoBrowser 200 demoDocument)
              (jsTrim ((textAt (removeScripts demoDocument.body) node).getD ""))
              (demoState "https://example.com/page").selectedLanguage) ∧
      ∀ node ∈ textNodes (removeScripts demoDocument.body),
        ∃ d, textAt (removeScripts demoDocument.body) node = some d ∧ 0 < (jsTrim d).length :=
  ⟨by decide, rfl, rfl,
    one_call_per_unit (demoBrowser 200 demoDocument) (demoState "https://example.com/page")
      ⟨200, .ok "<html>", .error "Unexpected token"⟩ "<html>" demoDocument (by decide) rfl rfl
      rfl⟩

/-- C3 (counterexample): fetch and parse succeed, and the run still ends in the `catch`
with the error toast: the page address is not an absolute URL and the `URL` constructor
throws in the asset step. -/
theorem url_constructor_fails_run :
    (((demoBrowser 200 demoDocument).fetch 0
        (proxyUrl (demoBrowser 200 demoDocument) "example.com")).toOption.map
        fun r => r.text.toOption) = some (some "<html>") ∧
      (((demoBrowser 200 demoDocument).parseFromString "<html>").toOption.map
        fun d => d.baseURI) = some "http://localhost:3000/" ∧
      translateWebsite (demoBrowser 200 demoDocument) (demoState "example.com") =
        [.setLoading true, .setTranslatedContent "",
          .fetch "https://api.allorigins.win/raw?url=example.com",
          .parse "<html>",
          .fetch "https://translate.googleapis.com/translate_a/single?client=gtx&sl=auto&tl=es&dt=t&q=Hello",
          .fetch "https://translate.googleapis.com/translate_a/single?client=gtx&sl=auto&tl=es&dt=t&q=two",
          .consoleError "Failed to fetch", .consoleError "Failed to fetch",
          .fetch "https://translate.googleapis.com/translate_a/single?client=gtx&sl=auto&tl=es&dt=t&q=three",
          .displayToast "Error: Invalid base URL", .setLoading false] := by
  decide

/-- C3 (amended): Once fetch and parse have succeeded, no failure of a translation call
makes the run fail: it fails only when the `URL` constructor throws in the asset step, with
the message of that exception. When it completes, the content is set and the success toast
shown, and in the final tree each unit whose call succeeded (request `i + 1` of the run for
unit `i`) holds exactly the returned string while each unit whose call failed holds its
original text. -/
theorem partial_failure_completes (B : Browser) (s : State) (r : Response) (html : String)
    (parsed : Document) (hurl : s.url ≠ "") (hf : B.fetch 0 (proxyUrl B s.url) = .ok r)
    (ht : r.text = .ok html) (hp : B.parseFromString html = .ok parsed) :
    match outcome B s with
    | .done final =>
      (finalState B s).translatedContent = B.innerHTML final.body ∧
        (finalState B s).toastMessage = "Translation completed successfully!" ∧
        ∀ i (h : i < (textNodes (removeScripts parsed.body)).length),
          textAt final.body ((textNodes (removeScripts parsed.body)).get ⟨i, h⟩) =
            some (unitText B s.selectedLanguage (i + 1)
              ((textAt (removeScripts parsed.body)
                ((textNodes (removeScripts parsed.body)).get ⟨i, h⟩)).getD ""))
    | .failed m => ∃ input, B.urlHref input s.url = .error m
    | .rejected => False := by
  rw [finalState_eq]
  simp only [outcome, hurl, if_false,
    pipeline_parsed B s.url s.selectedLanguage html r parsed hf ht hp]
  cases hres : (processDocument B s.url s.selectedLanguage parsed).2 with
  | error m =>
    simp only
    exact resolveDocument_error B s.url _ m hres
  | ok final =>
    simp only [true_and]
    intro i h
    obtain ⟨h2, e1, e2⟩ := textNodes_get (removeScripts parsed.body) i h
    obtain ⟨hnd, hall⟩ := textUnits_sound (removeScripts parsed.body)
    obtain ⟨_, _, h3⟩ := translateLoop_spec B s.selectedLanguage _ 1 _ hnd hall
    have hbody := resolveDocument_ok B s.url _ final hres
    simp only [processDocument, removeScriptElements] at hbody
    rw [resolveAssets_textAt B _ _ _ _ hbody, e2, e1, Option.getD_some]
    have := h3 i h2
    rw [← textNodes_eq] at this
    rw [this, Nat.add_comm]

theorem partial_failure_completes_witness :
    (demoState "https://example.com/page").url ≠ "" ∧
      (demoBrowser 200 demoDocument).fetch 0
          (proxyUrl (demoBrowser 200 demoDocument) (demoState "https://example.com/page").url) =
        .ok ⟨200, .ok "<html>", .error "Unexpected token"⟩ ∧
      (demoBrowser 200 demoDocument).parseFromString "<html>" = .ok demoDocument ∧
      (finalState (demoBrowser 200 demoDocument)
          (demoState "https://example.com/page")).translatedContent =
        "<p>Hola</p><img src=\"https://example.com/a.png\">\n  <a href=\"/x\">two</a><p>tres</p>" ∧
      match outcome (demoBrowser 200 demoDocument) (demoState "https://example.com/page") with
      | .done final =>
        (finalState (demoBrowser 200 demoDocument)
            (demoState "https://example.com/page")).translatedContent =
            (demoBrowser 200 demoDocument).innerHTML final.body ∧
          (finalState (demoBrowser 200 demoDocument)
            (demoState "https://example.com/page")).toastMessage =
            "Translation completed successfully!" ∧
          ∀ i (h : i < (textNodes (removeScripts demoDocument.body)).length),
            textAt final.body ((textNodes (removeScripts demoDocument.body)).get ⟨i, h⟩) =
              some (unitText (demoBrowser 200 demoDocument)
                (demoState "https://example.com/page").selectedLanguage (i + 1)
                ((textAt (removeScripts demoDocument.body)
                  ((textNodes (removeScripts demoDocument.body)).get ⟨i, h⟩)).getD ""))
      | .failed m =>
        ∃ input, (demoBrowser 200 demoDocument).urlHref input
          (demoState "https://example.com/page").url = .error m
      | .rejected => False :=
  ⟨by decide, rfl, rfl, by decide,
    partial_failure_completes (demoBrowser 200 demoDocument)
      (demoState "https://example.com/page") ⟨200, .ok "<html>", .error "Unexpected token"⟩
      "<html>" demoDocument (by decide) rfl rfl rfl⟩

theorem rewriteAttr_reflected (B : Browser) (url name v : String)
    (attrs attrs1 : List (String × String)) (hv : v ≠ "")
    (h : rewriteAttr B url name (some v) attrs = .ok attrs1) :
    ∃ href, B.urlHref v url = .ok href ∧ getAttr attrs1 name = some href := by
  unfold rewriteAttr at h
  cases hu : B.urlHref v url with
  | error e => simp [hv, hu] at h
  | ok href =>
    simp only [hv, hu, if_false, Except.ok.injEq] at h
    subst h
    exact ⟨href, rfl, getAttr_setAttr attrs name href⟩

theorem rewriteElement_img (B : Browser) (base url v : String)
    (attrs attrs1 : List (String × String)) (hs : getAttr attrs "src" = some v) (hv : v ≠ "")
    (hr : B.reflectURL base v = v) (h : rewriteElement B base url "img" attrs = .ok attrs1) :
    ∃ href, B.urlHref v url = .ok href ∧ getAttr attrs1 "src" = some href := by
  have ha : isAsset "img" attrs = true := by simp [isAsset]
  have hsrc : srcProperty B base "img" attrs = some v := by simp [srcProperty, hs, hr]
  unfold rewriteElement at h
  rw [if_pos ha, hsrc] at h
  cases h3 : rewriteAttr B url "src" (some v) attrs with
  | error e => rw [h3] at h; cases h
  | ok attrs2 =>
    have hh : hrefProperty B base "img" attrs2 = none := by simp [hrefProperty]
    rw [h3] at h
    simp only [hh, rewriteAttr, Except.ok.injEq] at h
    subst h
    exact rewriteAttr_reflected B url "src" v attrs attrs2 hv h3

theorem rewriteElement_link (B : Browser) (base url v : String)
    (attrs attrs1 : List (String × String)) (ha : isAsset "link" attrs = true)
    (hs : getAttr attrs "href" = some v) (hv : v ≠ "") (hr : B.reflectURL base v = v)
    (h : rewriteElement B base url "link" attrs = .ok attrs1) :
    ∃ href, B.urlHref v url = .ok href ∧ getAttr attrs1 "href" = some href := by
  have hsrc : srcProperty B base "link" attrs = none := by simp [srcProperty]
  have hh : hrefProperty B base "link" attrs = some v := by simp [hrefProperty, hs, hr]
  unfold rewriteElement at h
  rw [if_pos ha, hsrc] at h
  simp only [rewriteAttr] at h
  rw [hh] at h
  exact rewriteAttr_reflected B url "href" v attrs attrs1 hv (by simpa [rewriteAttr] using h)

/-- C7 (counterexample): the `href` of an `a` element is left as it was, here `/x`, although
it resolves to `https://example.com/x` against the page URL. -/
theorem anchor_href_untouched :
    attrAt (removeScripts demoDocument.body) [3] "href" = some "/x" ∧
      ((pipeline (demoBrowser 200 demoDocument) "https://example.com/page" "es").2.toOption.bind
        fun d => attrAt d.body [3] "href") = some "/x" ∧
      ((demoBrowser 200 demoDocument).urlHref "/x" "https://example.com/page").toOption =
        some "https://example.com/x" := by
  decide

/-- C7 (amended): When the asset step completes, every element is where it was; an element
that is not an `img`, a `link` with `rel` equal to `stylesheet` or a `script` keeps all its
attributes; an `img` whose `src`, and a stylesheet `link` whose `href`, is not empty and is
reported unchanged by the element property, has that attribute equal to the URL obtained by
resolving the original value against the page URL. -/
theorem assets_resolved (B : Browser) (url : String) (doc final : Document) (q : Path)
    (tag : String) (attrs : List (String × String)) (cs : List Node)
    (h : resolveDocument B url doc = .ok final)
    (hn : nodeAt doc.body q = some (.element tag attrs cs)) :
    ∃ attrs1 cs1, nodeAt final.body q = some (.element tag attrs1 cs1) ∧
      (isAsset tag attrs = false → attrs1 = attrs) ∧
      (∀ v, tag = "img" → getAttr attrs "src" = some v → v ≠ "" →
        B.reflectURL doc.baseURI v = v →
          ∃ href, B.urlHref v url = .ok href ∧ getAttr attrs1 "src" = some href) ∧
      (∀ v, tag = "link" → isAsset tag attrs = true → getAttr attrs "href" = some v → v ≠ "" →
        B.reflectURL doc.baseURI v = v →
          ∃ href, B.urlHref v url = .ok href ∧ getAttr attrs1 "href" = some href) := by
  obtain ⟨attrs1, cs1, h1, h2⟩ :=
    resolveAssets_nodeAt B doc.baseURI url doc.body final.body (resolveDocument_ok B url doc final h)
      q tag attrs cs hn
  refine ⟨attrs1, cs1, h1, ?_, ?_, ?_⟩
  · intro ha
    simp only [rewriteElement, ha, Bool.false_eq_true, if_false, Except.ok.injEq] at h2
    exact h2.symm
  · intro v ht hs hv hr
    subst ht
    exact rewriteElement_img B doc.baseURI url v attrs attrs1 hs hv hr h2
  · intro v ht ha hs hv hr
    subst ht
    exact rewriteElement_link B doc.baseURI url v attrs attrs1 ha hs hv hr h2

theorem assets_resolved_witness :
    resolveDocument (demoBrowser 200 demoDocument) "https://example.com/page" demoDocument =
        .ok demoDocument ∧
      nodeAt demoDocument.body [2] =
        some (.element "img" [("src", "https://example.com/a.png")] []) ∧
      ∃ attrs1 cs1, nodeAt demoDocument.body [2] = some (.element "img" attrs1 cs1) ∧
        (isAsset "img" [("src", "https://example.com/a.png")] = false →
          attrs1 = [("src", "https://example.com/a.png")]) ∧
        (∀ v, "img" = "img" → getAttr [("src", "https://example.com/a.png")] "src" = some v →
          v ≠ "" → (demoBrowser 200 demoDocument).reflectURL demoDocument.baseURI v = v →
            ∃ href, (demoBrowser 200 demoDocument).urlHref v "https://example.com/page" =
              .ok href ∧ getAttr attrs1 "src" = some href) ∧
        (∀ v, "img" = "link" → isAsset "img" [("src", "https://example.com/a.png")] = true →
          getAttr [("src", "https://example.com/a.png")] "href" = some v → v ≠ "" →
          (demoBrowser 200 demoDocument).reflectURL demoDocument.baseURI v = v →
            ∃ href, (demoBrowser 200 demoDocument).urlHref v "https://example.com/page" =
              .ok href ∧ getAttr attrs1 "href" = some href) :=
  ⟨rfl, rfl,
    assets_resolved (demoBrowser 200 demoDocument) "https://example.com/page" demoDocument
      demoDocument [2] "img" [("src", "https://example.com/a.png")] [] rfl rfl⟩

/-- C8: When the answer of the translation endpoint depends on the request alone, running
the translate-and-replace step over the collected units in any order leaves the same tree as
running it in document order; one step leaves every node other than its own as it was. -/
theorem translation_order_irrelevant (B : Browser) (lang : String) (body : List Node)
    (order : List Path) (k k2 : Nat) (hB : ∀ i j u, B.fetch i u = B.fetch j u)
    (hperm : order.Perm (textNodes body)) :
    (translateLoop B lang order k body).2 = (translateLoop B lang (textNodes body) k2 body).2 ∧
      ∀ (tree : List Node) (p q : Path), q ≠ p →
        textAt (translateStep B lang tree p) q = textAt tree q ∧
          (nodeAt (translateStep B lang tree p) q).map Node.own =
            (nodeAt tree q).map Node.own := by
  constructor
  · rw [translateLoop_foldl B lang hB, translateLoop_foldl B lang hB]
    exact hperm.foldl_eq' (fun x _ y _ z => translateStep_comm B lang z x y) body
  · intro tree p q hq
    refine ⟨translateStep_textAt B lang tree p q hq, ?_⟩
    rw [translateStep_eq]
    cases stepText B lang (textAt tree p) with
    | none => rfl
    | some t => exact nodeAt_setText_ne p q tree t hq

theorem translation_order_irrelevant_witness :
    (∀ i j u, steadyBrowser.fetch i u = steadyBrowser.fetch j u) ∧
      [[4, 0], [0, 0], [3, 0]].Perm (textNodes (removeScripts demoDocument.body)) ∧
      (translateLoop steadyBrowser "es" [[4, 0], [0, 0], [3, 0]] 1
          (removeScripts demoDocument.body)).2 =
        (translateLoop steadyBrowser "es" (textNodes (removeScripts demoDocument.body)) 1
          (removeScripts demoDocument.body)).2 ∧
      ∀ (tree : List Node) (p q : Path), q ≠ p →
        textAt (translateStep steadyBrowser "es" tree p) q = textAt tree q ∧
          (nodeAt (translateStep steadyBrowser "es" tree p) q).map Node.own =
            (nodeAt tree q).map Node.own :=
  ⟨fun _ _ _ => rfl, by decide,
    translation_order_irrelevant steadyBrowser "es" (removeScripts demoDocument.body)
      [[4, 0], [0, 0], [3, 0]] 1 1 (fun _ _ _ => rfl) (by decide)⟩

end TranslateWeb
